import Mathlib

/-!
# Cartesian impedance controller base: a shallow embedding

Embedding of `src/cartesian_impedance_controller_base.cpp`.

* The first layer models `double` by an arbitrary linearly ordered field `α`
  (exact arithmetic, no rounding, no NaN); the definitions are computable and
  can be evaluated over `ℚ`, the theorems hold in particular over `ℝ`.
* The second layer, namespace `Fl`, repeats the arithmetic with a rounding
  function `fl` applied to the result of every floating-point operation.
  `roundDouble` is IEEE 754 binary64 round-to-nearest, ties to even, with an
  unbounded exponent range; `IsRounding` collects what the theorems use of a
  rounding (monotone, odd, idempotent). A property that rounding can break is
  stated and proved on this layer, and the inputs that break it are evaluated
  with `roundDouble`.
* `Eigen::Matrix<double, n, 1>` is `Fin n → α`, `Eigen::Matrix<double, m, n>`
  is `Matrix (Fin m) (Fin n) α`.
* `Eigen::Quaterniond` is the structure `Quat` with Eigen's product, dot,
  conjugate and inverse.
* Reference parameters and member fields that a function writes are returned
  in a result structure.
* The C math library functions `sqrt`, `atan2`, `sin` and `cos`, the constant
  `EIGEN_PI`, Eigen's `slerp` and the repository's `pseudoInverse` (declared in
  `pseudo_inversion.h`) are taken as parameters; over the reals they are
  `Real.sqrt`, `atan2R`, `Real.sin`, `Real.cos` and `Real.pi`, and in binary64
  the correctly rounded `sqrtDouble`, `atan2Double` and `normDouble`.
* Eigen's quaternion, angle-axis and Euler-angle routines follow Eigen 3.3 and
  3.4.
-/

namespace CartesianImpedance

/-! ## Torque rate limiter -/

/-- Seven joint values, `Eigen::Matrix<double, 7, 1>`. -/
abbrev Vec7 (α : Type) := Fin 7 → α

/-- Result of `saturateTorqueRate`: the returned vector and the reference
parameter `tau_J_d` as the call leaves it. -/
structure SaturateResult (α : Type) where
  /-- the value returned, `tau_d_saturated` -/
  ret : Vec7 α
  /-- the reference parameter `tau_J_d` after the call -/
  tau_J_d : Vec7 α
  /-- the const reference parameter `tau_d_calculated` after the call -/
  tau_d_calculated : Vec7 α

/-- First loop of `saturateTorqueRate` (lines 13-18): the saturated torque of
every joint. -/
def tau_d_saturated {α : Type} [LinearOrderedField α]
    (tau_d_calculated tau_J_d : Vec7 α) (delta_tau_max_ : α) : Vec7 α :=
  fun i =>
    let difference := tau_d_calculated i - tau_J_d i
    tau_J_d i + max (min difference delta_tau_max_) (-delta_tau_max_)

/-- Source `CartesianImpedanceController_base::saturateTorqueRate` (lines 8-25): the
second loop copies the saturated torque into `tau_J_d`, then it is returned. -/
def saturateTorqueRate {α : Type} [LinearOrderedField α]
    (tau_d_calculated tau_J_d : Vec7 α) (delta_tau_max_ : α) : SaturateResult α :=
  let sat := tau_d_saturated tau_d_calculated tau_J_d delta_tau_max_
  { ret := sat, tau_J_d := fun i => sat i, tau_d_calculated := tau_d_calculated }

/-! ## Quaternions and angle-axis (Eigen/Geometry) -/

/-- Three coordinates, `Eigen::Vector3d`. -/
abbrev Vec3 (α : Type) := Fin 3 → α

/-- Six task-space coordinates, `Eigen::Matrix<double, 6, 1>`. -/
abbrev Vec6 (α : Type) := Fin 6 → α

/-- Type `Eigen::Quaterniond`: the four coefficients `w`, `x`, `y`, `z`. -/
@[ext]
structure Quat (α : Type) where
  /-- scalar part -/
  w : α
  /-- first coordinate of the vector part -/
  x : α
  /-- second coordinate of the vector part -/
  y : α
  /-- third coordinate of the vector part -/
  z : α
  deriving DecidableEq

namespace Quat

variable {α : Type} [LinearOrderedField α]

/-- Eigen `a.coeffs().dot(b.coeffs())`: the dot product of the coefficient vectors. -/
def coeffsDot (a b : Quat α) : α :=
  a.x * b.x + a.y * b.y + a.z * b.z + a.w * b.w

/-- Assignment `q.coeffs() << -q.coeffs()`: all four coefficients negated. -/
def negCoeffs (q : Quat α) : Quat α :=
  { w := -q.w, x := -q.x, y := -q.y, z := -q.z }

/-- Eigen `QuaternionBase::squaredNorm`. -/
def squaredNorm (q : Quat α) : α :=
  q.x * q.x + q.y * q.y + q.z * q.z + q.w * q.w

/-- Eigen `QuaternionBase::conjugate`. -/
def conjugate (q : Quat α) : Quat α :=
  { w := q.w, x := -q.x, y := -q.y, z := -q.z }

/-- Eigen `QuaternionBase::inverse`: the conjugate over the squared norm, and the
zero quaternion when the squared norm is not positive. -/
def inverse (q : Quat α) : Quat α :=
  let n2 := q.squaredNorm
  if 0 < n2 then
    { w := q.conjugate.w / n2, x := q.conjugate.x / n2,
      y := q.conjugate.y / n2, z := q.conjugate.z / n2 }
  else
    { w := 0, x := 0, y := 0, z := 0 }

/-- Eigen `operator*` of two quaternions (Eigen's `quat_product`). -/
def mul (a b : Quat α) : Quat α :=
  { w := a.w * b.w - a.x * b.x - a.y * b.y - a.z * b.z,
    x := a.w * b.x + a.x * b.w + a.y * b.z - a.z * b.y,
    y := a.w * b.y + a.y * b.w + a.z * b.x - a.x * b.z,
    z := a.w * b.z + a.z * b.w + a.x * b.y - a.y * b.x }

end Quat

/-- Type `Eigen::AngleAxisd`: an angle and an axis. -/
structure AngleAxis (α : Type) where
  /-- rotation angle, `angle()` -/
  angle : α
  /-- rotation axis, `axis()` -/
  axis : Vec3 α

/-- Eigen `AngleAxis::operator=(const QuaternionBase&)`, the conversion run by the
constructor `Eigen::AngleAxisd(error_quaternion)` (Eigen 3.3 and 3.4). `n` is
the norm of the vector part (in exact arithmetic `stableNorm` equals `norm`, so
the small-norm recomputation leaves `n` as it is). -/
def AngleAxis.ofQuat {α : Type} [LinearOrderedField α]
    (sqrt : α → α) (atan2 : α → α → α) (q : Quat α) : AngleAxis α :=
  let n := sqrt (q.x * q.x + q.y * q.y + q.z * q.z)
  if n ≠ 0 then
    let n' := if q.w < 0 then -n else n
    { angle := 2 * atan2 n |q.w|, axis := ![q.x / n', q.y / n', q.z / n'] }
  else
    { angle := 0, axis := ![1, 0, 0] }

/-! ## The controller object -/

/-- A 6x6 task-space matrix, `Eigen::Matrix<double, 6, 6>`. -/
abbrev Mat66 (α : Type) := Matrix (Fin 6) (Fin 6) α

/-- The member fields of `CartesianImpedanceController_base` that the source
file reads or writes. -/
structure Controller (α : Type) where
  /-- live task-space stiffness -/
  cartesian_stiffness_ : Mat66 α
  /-- live task-space damping -/
  cartesian_damping_ : Mat66 α
  /-- live nullspace stiffness -/
  nullspace_stiffness_ : α
  /-- nullspace stiffness target -/
  nullspace_stiffness_target_ : α
  /-- nullspace reference configuration -/
  q_d_nullspace_ : Vec7 α
  /-- desired position -/
  position_d_ : Vec3 α
  /-- desired orientation -/
  orientation_d_ : Quat α

/-! ## Pose error and control law -/

/-- Result of the pose-error part of `update_control` (lines 33-48): the
reference parameter `orientation` as the sign fix leaves it, and the local
6-vector `error`. -/
structure PoseError (α : Type) where
  /-- the reference parameter `orientation` after the sign fix -/
  orientation : Quat α
  /-- the local variable `error` -/
  error : Vec6 α

/-- The 6-vector whose `head(3)` is `h` and whose `tail(3)` is `t`. -/
def headTail {α : Type} (h t : Vec3 α) : Vec6 α :=
  ![h 0, h 1, h 2, t 0, t 1, t 2]

/-- Lines 33-48 of `update_control`: position error, quaternion sign fix,
difference quaternion, angle-axis conversion, orientation error. -/
def poseError {α : Type} [LinearOrderedField α]
    (sqrt : α → α) (atan2 : α → α → α)
    (position : Vec3 α) (orientation : Quat α)
    (position_d_ : Vec3 α) (orientation_d_ : Quat α) : PoseError α :=
  let orientation' :=
    if orientation_d_.coeffsDot orientation < 0 then orientation.negCoeffs else orientation
  let error_quaternion := orientation'.mul orientation_d_.inverse
  let error_quaternion_angle_axis := AngleAxis.ofQuat sqrt atan2 error_quaternion
  { orientation := orientation',
    error := headTail (fun i => position i - position_d_ i)
      (fun i => error_quaternion_angle_axis.axis i * error_quaternion_angle_axis.angle) }

/-- Result of `update_control`: the return value, the reference parameters it
writes and the local `error`. -/
structure ControlResult (α : Type) where
  /-- the value returned -/
  ret : Bool
  /-- the reference parameter `orientation` after the call -/
  orientation : Quat α
  /-- the local variable `error` -/
  error : Vec6 α
  /-- the reference parameter `tau_d` after the call -/
  tau_d : Vec7 α
  /-- the reference parameter `tau_task` after the call -/
  tau_task : Vec7 α
  /-- the reference parameter `tau_nullspace` after the call -/
  tau_nullspace : Vec7 α

/-- Source `CartesianImpedanceController_base::update_control` (lines 27-70). The
stiffness, damping, nullspace stiffness and nullspace reference are read from
the object; `pseudoInverse` maps the 7x6 transposed Jacobian to the 6x7 matrix
it stores in `jacobian_transpose_pinv`. -/
def update_control {α : Type} [LinearOrderedField α]
    (sqrt : α → α) (atan2 : α → α → α)
    (pseudoInverse : Matrix (Fin 7) (Fin 6) α → Matrix (Fin 6) (Fin 7) α)
    (self : Controller α) (q dq : Vec7 α)
    (position : Vec3 α) (orientation : Quat α)
    (position_d_ : Vec3 α) (orientation_d_ : Quat α)
    (jacobian : Matrix (Fin 6) (Fin 7) α) : ControlResult α :=
  let pe := poseError sqrt atan2 position orientation position_d_ orientation_d_
  let error := pe.error
  let jacobian_transpose_pinv := pseudoInverse jacobian.transpose
  let tau_task : Vec7 α :=
    jacobian.transpose.mulVec
      ((-self.cartesian_stiffness_).mulVec error
        - self.cartesian_damping_.mulVec (jacobian.mulVec dq))
  let tau_nullspace : Vec7 α :=
    ((1 : Matrix (Fin 7) (Fin 7) α) - jacobian.transpose * jacobian_transpose_pinv).mulVec
      (self.nullspace_stiffness_ • (self.q_d_nullspace_ - q)
        - (2 * sqrt self.nullspace_stiffness_) • dq)
  { ret := true, orientation := pe.orientation, error := error,
    tau_d := tau_task + tau_nullspace, tau_task := tau_task,
    tau_nullspace := tau_nullspace }

/-! ## Parameter smoothing -/

/-- The live values that `update_parameters` receives by reference, also used
for the targets it receives by value. -/
structure Params (α : Type) where
  /-- nullspace stiffness -/
  nullspace_stiffness : α
  /-- task-space stiffness -/
  cartesian_stiffness : Mat66 α
  /-- task-space damping -/
  cartesian_damping : Mat66 α
  /-- nullspace reference configuration -/
  q_d_nullspace : Vec7 α
  /-- desired position -/
  position_d : Vec3 α
  /-- desired orientation -/
  orientation_d : Quat α

/-- Result of `update_parameters`: the object and the reference parameters
after the call. -/
structure ParametersResult (α : Type) where
  /-- the object after the call -/
  self : Controller α
  /-- the reference parameters after the call -/
  live : Params α

/-- Source `CartesianImpedanceController_base::update_parameters` (lines 72-95):
`live` holds the reference parameters (which shadow the members of the same
name), `target` the `*_target_` parameters; `slerp a t b` is Eigen's
`a.slerp(t, b)`. -/
def update_parameters {α : Type} [LinearOrderedField α]
    (slerp : Quat α → α → Quat α → Quat α)
    (self : Controller α) (filter_params_ : α)
    (live target : Params α) : ParametersResult α :=
  let cartesian_stiffness_ : Mat66 α :=
    filter_params_ • target.cartesian_stiffness
      + (1 - filter_params_) • live.cartesian_stiffness
  let cartesian_damping_ : Mat66 α :=
    filter_params_ • target.cartesian_damping
      + (1 - filter_params_) • live.cartesian_damping
  let nullspace_stiffness_ : α :=
    filter_params_ * target.nullspace_stiffness
      + (1 - filter_params_) * live.nullspace_stiffness
  let position_d_ : Vec3 α :=
    filter_params_ • target.position_d + (1 - filter_params_) • live.position_d
  let q_d_nullspace_ : Vec7 α :=
    filter_params_ • target.q_d_nullspace + (1 - filter_params_) • live.q_d_nullspace
  let orientation_d_ : Quat α :=
    slerp live.orientation_d filter_params_ target.orientation_d
  { self :=
      { self with
        cartesian_stiffness_ := cartesian_stiffness_,
        cartesian_damping_ := cartesian_damping_,
        nullspace_stiffness_ := nullspace_stiffness_,
        position_d_ := position_d_,
        q_d_nullspace_ := q_d_nullspace_,
        orientation_d_ := orientation_d_ },
    live :=
      { nullspace_stiffness := nullspace_stiffness_,
        cartesian_stiffness := cartesian_stiffness_,
        cartesian_damping := cartesian_damping_,
        q_d_nullspace := q_d_nullspace_,
        position_d := position_d_,
        orientation_d := orientation_d_ } }

/-- The state after `n` successive calls of `update_parameters` with the same
filter parameter and targets, each call receiving the object and the reference
parameters the previous one left. -/
def update_parameters_iterate {α : Type} [LinearOrderedField α]
    (slerp : Quat α → α → Quat α → Quat α) (filter_params_ : α) (target : Params α)
    (self : Controller α) (live : Params α) : Nat → ParametersResult α
  | 0 => { self := self, live := live }
  | n + 1 =>
    let prev := update_parameters_iterate slerp filter_params_ target self live n
    update_parameters slerp prev.self filter_params_ prev.live target

/-! ## Compliance builder -/

/-- Eigen `M.setIdentity()`: whatever `M` held, it is the identity afterwards. -/
def setIdentity {α : Type} [LinearOrderedField α] (_M : Mat66 α) : Mat66 α :=
  1

/-- Eigen `v.asDiagonal()` assigned to an `Eigen::Matrix3d`. -/
def asDiagonal {α : Type} [LinearOrderedField α] (v : Vec3 α) :
    Matrix (Fin 3) (Fin 3) α :=
  Matrix.diagonal v

/-- Assignment `M.topLeftCorner(3, 3) << B`: rows and columns 0..2 are overwritten. -/
def setTopLeftCorner {α : Type} (M : Mat66 α) (B : Matrix (Fin 3) (Fin 3) α) : Mat66 α :=
  Matrix.of fun i j =>
    if h : i.val < 3 ∧ j.val < 3 then B ⟨i.val, h.1⟩ ⟨j.val, h.2⟩ else M i j

/-- Assignment `M.bottomRightCorner(3, 3) << B`: rows and columns 3..5 are overwritten. -/
def setBottomRightCorner {α : Type} (M : Mat66 α) (B : Matrix (Fin 3) (Fin 3) α) :
    Mat66 α :=
  Matrix.of fun i j =>
    if h : 3 ≤ i.val ∧ 3 ≤ j.val then
      B ⟨i.val - 3, by have := i.isLt; omega⟩ ⟨j.val - 3, by have := j.isLt; omega⟩
    else M i j

/-- Expression `2 * K.cwiseSqrt()`: twice the square root of every coefficient of the 3x3
matrix, the off-diagonal zeros included. -/
def twoCwiseSqrt {α : Type} [LinearOrderedField α] (sqrt : α → α)
    (K : Matrix (Fin 3) (Fin 3) α) : Matrix (Fin 3) (Fin 3) α :=
  Matrix.of fun i j => 2 * sqrt (K i j)

/-- Result of `update_compliance`: the object and the two reference parameters
after the call. -/
structure ComplianceResult (α : Type) where
  /-- the object after the call -/
  self : Controller α
  /-- the reference parameter `cartesian_stiffness_target_` after the call -/
  cartesian_stiffness_target_ : Mat66 α
  /-- the reference parameter `cartesian_damping_target_` after the call -/
  cartesian_damping_target_ : Mat66 α

/-- Source `CartesianImpedanceController_base::update_compliance` (lines 97-115). -/
def update_compliance {α : Type} [LinearOrderedField α] (sqrt : α → α)
    (self : Controller α)
    (translational_stiffness rotational_stiffness : Vec3 α) (nullspace_stiffness : α)
    (cartesian_stiffness_target_ cartesian_damping_target_ : Mat66 α) :
    ComplianceResult α :=
  let stiffness0 := setIdentity cartesian_stiffness_target_
  let K_t := asDiagonal translational_stiffness
  let K_r := asDiagonal rotational_stiffness
  let stiffness1 := setTopLeftCorner stiffness0 K_t
  let stiffness2 := setBottomRightCorner stiffness1 K_r
  let damping0 := setIdentity cartesian_damping_target_
  let damping1 := setTopLeftCorner damping0 (twoCwiseSqrt sqrt K_t)
  let damping2 := setBottomRightCorner damping1 (twoCwiseSqrt sqrt K_r)
  { self := { self with nullspace_stiffness_target_ := nullspace_stiffness },
    cartesian_stiffness_target_ := stiffness2,
    cartesian_damping_target_ := damping2 }

/-! ## Repeated calls of the rate limiter -/

/-- The carried state `tau_J_d` after `n` successive calls of
`saturateTorqueRate` with the same `tau_d_calculated` and `delta_tau_max_`,
each call receiving the `tau_J_d` the previous one left. -/
def saturateTorqueRate_iterate {α : Type} [LinearOrderedField α]
    (tau_d_calculated : Vec7 α) (delta_tau_max_ : α) (tau_J_d : Vec7 α) : Nat → Vec7 α
  | 0 => tau_J_d
  | n + 1 =>
    (saturateTorqueRate tau_d_calculated
      (saturateTorqueRate_iterate tau_d_calculated delta_tau_max_ tau_J_d n)
      delta_tau_max_).tau_J_d

/-! ## A Jacobian with a known pseudo-inverse -/

namespace Quat

variable {α : Type} [LinearOrderedField α]

end Quat

/-- Round to the nearest integer, ties to the even integer. -/
def roundHalfEven {α : Type} [LinearOrderedField α] [FloorRing α] (q : α) : ℤ :=
  if q - ⌊q⌋ < 1 / 2 then ⌊q⌋
  else if 1 / 2 < q - ⌊q⌋ then ⌊q⌋ + 1
  else if ⌊q⌋ % 2 = 0 then ⌊q⌋ else ⌊q⌋ + 1

/-- Spacing of the binary64 numbers in the binade of `x`: `2 ^ (e - 52)` for
`2 ^ e ≤ |x| < 2 ^ (e + 1)`. -/
def binadeSpacing {α : Type} [LinearOrderedField α] [FloorRing α] (x : α) : α :=
  (2 : α) ^ (Int.log 2 |x| - 52)

/-- IEEE 754 binary64 rounding of `x`: the nearest multiple of the spacing of
its binade, ties to the even significand. -/
def roundDouble {α : Type} [LinearOrderedField α] [FloorRing α] (x : α) : α :=
  (roundHalfEven (x / binadeSpacing x) : α) * binadeSpacing x

/-- What the theorems use of a rounding function: it is monotone, odd, and
leaves its own values unchanged. -/
def IsRounding {α : Type} [LinearOrderedField α] (fl : α → α) : Prop :=
  (∀ x y, x ≤ y → fl x ≤ fl y) ∧ (∀ x, fl (-x) = -fl x) ∧ (∀ x, fl (fl x) = fl x)

namespace Fl

/-- First loop of `saturateTorqueRate` (lines 13-18) with the subtraction and
the addition rounded. -/
def tau_d_saturated {α : Type} [LinearOrderedField α] (fl : α → α)
    (tau_d_calculated tau_J_d : Vec7 α) (delta_tau_max_ : α) : Vec7 α :=
  fun i =>
    let difference := fl (tau_d_calculated i - tau_J_d i)
    fl (tau_J_d i + max (min difference delta_tau_max_) (-delta_tau_max_))

/-- Source `CartesianImpedanceController_base::saturateTorqueRate` (lines 8-25)
with rounded arithmetic. -/
def saturateTorqueRate {α : Type} [LinearOrderedField α] (fl : α → α)
    (tau_d_calculated tau_J_d : Vec7 α) (delta_tau_max_ : α) : SaturateResult α :=
  let sat := tau_d_saturated fl tau_d_calculated tau_J_d delta_tau_max_
  { ret := sat, tau_J_d := fun i => sat i, tau_d_calculated := tau_d_calculated }

/-- The carried state `tau_J_d` after `n` successive calls of the rounded
`saturateTorqueRate` with the same `tau_d_calculated` and `delta_tau_max_`. -/
def saturateTorqueRate_iterate {α : Type} [LinearOrderedField α] (fl : α → α)
    (tau_d_calculated : Vec7 α) (delta_tau_max_ : α) (tau_J_d : Vec7 α) : Nat → Vec7 α
  | 0 => tau_J_d
  | n + 1 =>
    (saturateTorqueRate fl tau_d_calculated
      (saturateTorqueRate_iterate fl tau_d_calculated delta_tau_max_ tau_J_d n)
      delta_tau_max_).tau_J_d

end Fl

namespace Fl

/-- One filtered scalar of `update_parameters` (lines 79-86) with rounded
arithmetic: `filter_params_ * target + (1.0 - filter_params_) * current`, the
subtraction, the two products and the sum each rounded. -/
def filter {α : Type} [LinearOrderedField α] (fl : α → α) (filter_params_ target current : α) :
    α :=
  fl (fl (filter_params_ * target) + fl (fl (1 - filter_params_) * current))

/-- Source `CartesianImpedanceController_base::update_parameters` (lines 72-95)
with rounded arithmetic: every coefficient of the filtered matrices, vectors and
scalars is `Fl.filter` of its target and its current value. -/
def update_parameters {α : Type} [LinearOrderedField α] (fl : α → α)
    (slerp : Quat α → α → Quat α → Quat α)
    (self : Controller α) (filter_params_ : α)
    (live target : Params α) : ParametersResult α :=
  let cartesian_stiffness_ : Mat66 α :=
    Matrix.of fun i j =>
      filter fl filter_params_ (target.cartesian_stiffness i j) (live.cartesian_stiffness i j)
  let cartesian_damping_ : Mat66 α :=
    Matrix.of fun i j =>
      filter fl filter_params_ (target.cartesian_damping i j) (live.cartesian_damping i j)
  let nullspace_stiffness_ : α :=
    filter fl filter_params_ target.nullspace_stiffness live.nullspace_stiffness
  let position_d_ : Vec3 α :=
    fun i => filter fl filter_params_ (target.position_d i) (live.position_d i)
  let q_d_nullspace_ : Vec7 α :=
    fun i => filter fl filter_params_ (target.q_d_nullspace i) (live.q_d_nullspace i)
  let orientation_d_ : Quat α :=
    slerp live.orientation_d filter_params_ target.orientation_d
  { self :=
      { self with
        cartesian_stiffness_ := cartesian_stiffness_,
        cartesian_damping_ := cartesian_damping_,
        nullspace_stiffness_ := nullspace_stiffness_,
        position_d_ := position_d_,
        q_d_nullspace_ := q_d_nullspace_,
        orientation_d_ := orientation_d_ },
    live :=
      { nullspace_stiffness := nullspace_stiffness_,
        cartesian_stiffness := cartesian_stiffness_,
        cartesian_damping := cartesian_damping_,
        q_d_nullspace := q_d_nullspace_,
        position_d := position_d_,
        orientation_d := orientation_d_ } }

/-- The state after `n` successive calls of the rounded `update_parameters`
with the same filter parameter and targets. -/
def update_parameters_iterate {α : Type} [LinearOrderedField α] (fl : α → α)
    (slerp : Quat α → α → Quat α → Quat α) (filter_params_ : α) (target : Params α)
    (self : Controller α) (live : Params α) : Nat → ParametersResult α
  | 0 => { self := self, live := live }
  | n + 1 =>
    let prev := update_parameters_iterate fl slerp filter_params_ target self live n
    update_parameters fl slerp prev.self filter_params_ prev.live target

end Fl

namespace Fl

/-- Eigen `a.coeffs().dot(b.coeffs())` with rounded arithmetic. -/
def coeffsDot {α : Type} [LinearOrderedField α] (fl : α → α) (a b : Quat α) : α :=
  fl (fl (fl (a.x * b.x) + fl (a.y * b.y)) + fl (fl (a.z * b.z) + fl (a.w * b.w)))

/-- Eigen `QuaternionBase::squaredNorm` with rounded arithmetic. -/
def squaredNorm {α : Type} [LinearOrderedField α] (fl : α → α) (q : Quat α) : α :=
  fl (fl (fl (q.x * q.x) + fl (q.y * q.y)) + fl (fl (q.z * q.z) + fl (q.w * q.w)))

/-- Eigen `QuaternionBase::inverse` with rounded arithmetic: the coefficients of
the conjugate divided by the squared norm, and the zero quaternion when the
squared norm is not positive. -/
def inverse {α : Type} [LinearOrderedField α] (fl : α → α) (q : Quat α) : Quat α :=
  let n2 := squaredNorm fl q
  if 0 < n2 then
    { w := fl (q.conjugate.w / n2), x := fl (q.conjugate.x / n2),
      y := fl (q.conjugate.y / n2), z := fl (q.conjugate.z / n2) }
  else
    { w := 0, x := 0, y := 0, z := 0 }

/-- Eigen `operator*` of two quaternions (Eigen's `quat_product`) with rounded
arithmetic. -/
def mul {α : Type} [LinearOrderedField α] (fl : α → α) (a b : Quat α) : Quat α :=
  { w := fl (fl (fl (fl (a.w * b.w) - fl (a.x * b.x)) - fl (a.y * b.y)) - fl (a.z * b.z)),
    x := fl (fl (fl (fl (a.w * b.x) + fl (a.x * b.w)) + fl (a.y * b.z)) - fl (a.z * b.y)),
    y := fl (fl (fl (fl (a.w * b.y) + fl (a.y * b.w)) + fl (a.z * b.x)) - fl (a.x * b.z)),
    z := fl (fl (fl (fl (a.w * b.z) + fl (a.z * b.w)) + fl (a.x * b.y)) - fl (a.y * b.x)) }

/-- Eigen `AngleAxis::operator=(const QuaternionBase&)` with rounded arithmetic
(Eigen 3.3 and 3.4): `n` is the norm of the vector part, recomputed with
`stableNorm` when it is below the machine epsilon. -/
def angleAxisOfQuat {α : Type} [LinearOrderedField α] (fl : α → α)
    (sqrt : α → α) (atan2 : α → α → α) (stableNorm : Vec3 α → α) (q : Quat α) :
    AngleAxis α :=
  let n0 := sqrt (fl (fl (q.x * q.x) + fl (fl (q.y * q.y) + fl (q.z * q.z))))
  let n := if n0 < (2 : α) ^ (-52 : ℤ) then stableNorm ![q.x, q.y, q.z] else n0
  if n ≠ 0 then
    let n' := if q.w < 0 then -n else n
    { angle := fl (2 * atan2 n |q.w|),
      axis := ![fl (q.x / n'), fl (q.y / n'), fl (q.z / n')] }
  else
    { angle := 0, axis := ![1, 0, 0] }

/-- Lines 33-48 of `update_control` with rounded arithmetic. -/
def poseError {α : Type} [LinearOrderedField α] (fl : α → α)
    (sqrt : α → α) (atan2 : α → α → α) (stableNorm : Vec3 α → α)
    (position : Vec3 α) (orientation : Quat α)
    (position_d_ : Vec3 α) (orientation_d_ : Quat α) : PoseError α :=
  let orientation' :=
    if coeffsDot fl orientation_d_ orientation < 0 then orientation.negCoeffs else orientation
  let error_quaternion := mul fl orientation' (inverse fl orientation_d_)
  let error_quaternion_angle_axis := angleAxisOfQuat fl sqrt atan2 stableNorm error_quaternion
  { orientation := orientation',
    error := headTail (fun i => fl (position i - position_d_ i))
      (fun i => fl (error_quaternion_angle_axis.axis i * error_quaternion_angle_axis.angle)) }

/-- Rounded sum of the terms `t 0`, ..., `t (n - 1)` in index order, accumulated
from 0 (adding a rounded first term to 0 leaves it unchanged). -/
def sum {α : Type} [LinearOrderedField α] (fl : α → α) {n : Nat} (t : Fin n → α) : α :=
  Fin.foldl n (fun acc i => fl (acc + t i)) 0

/-- Rounded inner product. -/
def dot {α : Type} [LinearOrderedField α] (fl : α → α) {n : Nat} (u v : Fin n → α) : α :=
  sum fl (fun i => fl (u i * v i))

/-- Rounded matrix-vector product. -/
def mulVec {α : Type} [LinearOrderedField α] (fl : α → α) {m n : Nat}
    (M : Matrix (Fin m) (Fin n) α) (v : Fin n → α) : Fin m → α :=
  fun i => dot fl (M i) v

/-- Rounded matrix-matrix product. -/
def matMul {α : Type} [LinearOrderedField α] (fl : α → α) {l m n : Nat}
    (A : Matrix (Fin l) (Fin m) α) (B : Matrix (Fin m) (Fin n) α) :
    Matrix (Fin l) (Fin n) α :=
  Matrix.of fun i j => dot fl (A i) (fun k => B k j)

/-- Source `CartesianImpedanceController_base::update_control` (lines 27-70)
with rounded arithmetic. -/
def update_control {α : Type} [LinearOrderedField α] (fl : α → α)
    (sqrt : α → α) (atan2 : α → α → α) (stableNorm : Vec3 α → α)
    (pseudoInverse : Matrix (Fin 7) (Fin 6) α → Matrix (Fin 6) (Fin 7) α)
    (self : Controller α) (q dq : Vec7 α)
    (position : Vec3 α) (orientation : Quat α)
    (position_d_ : Vec3 α) (orientation_d_ : Quat α)
    (jacobian : Matrix (Fin 6) (Fin 7) α) : ControlResult α :=
  let pe := poseError fl sqrt atan2 stableNorm position orientation position_d_ orientation_d_
  let error := pe.error
  let jacobian_transpose_pinv := pseudoInverse jacobian.transpose
  let tau_task : Vec7 α :=
    mulVec fl jacobian.transpose
      (fun i => fl (mulVec fl (-self.cartesian_stiffness_) error i
        - mulVec fl self.cartesian_damping_ (mulVec fl jacobian dq) i))
  let tau_nullspace : Vec7 α :=
    mulVec fl
      (Matrix.of fun i j => fl ((1 : Matrix (Fin 7) (Fin 7) α) i j
        - matMul fl jacobian.transpose jacobian_transpose_pinv i j))
      (fun i => fl (fl (self.nullspace_stiffness_ * fl (self.q_d_nullspace_ i - q i))
        - fl (fl (2 * sqrt self.nullspace_stiffness_) * dq i)))
  { ret := true, orientation := pe.orientation, error := error,
    tau_d := fun i => fl (tau_task i + tau_nullspace i), tau_task := tau_task,
    tau_nullspace := tau_nullspace }

end Fl

/-! ## Real-number instances of the math library and specification predicates -/

/-- The C library `atan2(y, x)` over the reals: the argument of `x + y i`, in
`(-π, π]`, and `0` at the origin. -/
noncomputable def atan2R (y x : ℝ) : ℝ :=
  Complex.arg ⟨x, y⟩

/-- A square matrix is symmetric positive-semidefinite: it equals its transpose
and its quadratic form is nowhere negative. -/
def IsSymmPSD {α : Type} [LinearOrderedField α] {n : Nat}
    (M : Matrix (Fin n) (Fin n) α) : Prop :=
  M.transpose = M ∧ ∀ v : Fin n → α, 0 ≤ Matrix.dotProduct v (M.mulVec v)

/-- The sequence `c` approaches the target `t` geometrically with ratio `1 - a`:
closed form of the distance, same side of the target at every step, distance
to the target never growing, and convergence to the target. -/
def ConvergesGeometrically (a t : ℝ) (c : Nat → ℝ) : Prop :=
  (∀ n, c n - t = (1 - a) ^ n * (c 0 - t))
    ∧ (∀ n, 0 < c 0 - t → 0 < c n - t)
    ∧ (∀ n, c 0 - t < 0 → c n - t < 0)
    ∧ (∀ n, c 0 = t → c n = t)
    ∧ (∀ n, |c (n + 1) - t| ≤ |c n - t|)
    ∧ Filter.Tendsto c Filter.atTop (nhds t)

/-! ## Concrete inputs -/

/-- The end-to-end scenario of the specification: `Kt = (200, 200, 200)`,
`Kr = (20, 20, 20)`, nullspace stiffness 10. -/
def scenario (α : Type) [LinearOrderedField α] : Controller α :=
  { cartesian_stiffness_ := Matrix.diagonal ![200, 200, 200, 20, 20, 20],
    cartesian_damping_ := Matrix.diagonal ![28, 28, 28, 9, 9, 9],
    nullspace_stiffness_ := 10,
    nullspace_stiffness_target_ := 10,
    q_d_nullspace_ := ![0, -1 / 2, 0, -2, 0, 3 / 2, 1 / 2],
    position_d_ := ![1 / 2, 0, 1 / 2],
    orientation_d_ := { w := 0, x := 1, y := 0, z := 0 } }

/-- A Jacobian for the scenario. -/
def scenarioJacobian : Matrix (Fin 6) (Fin 7) ℚ :=
  Matrix.of fun i j => if i.val = j.val then 1 else 1 / 2

/-- Parameters with stiffness `k` and damping `d` on every diagonal entry, zero
elsewhere. -/
def uniformParams (α : Type) [LinearOrderedField α] (k d : α) : Params α :=
  { nullspace_stiffness := k,
    cartesian_stiffness := Matrix.diagonal fun _ => k,
    cartesian_damping := Matrix.diagonal fun _ => d,
    q_d_nullspace := fun _ => k,
    position_d := fun _ => k,
    orientation_d := { w := 1, x := 0, y := 0, z := 0 } }

/-- A stand-in for `slerp` that keeps the current orientation. -/
def keepOrientation {α : Type} (a : Quat α) (_t : α) (_b : Quat α) : Quat α :=
  a

/-- The binary64 number nearest to 0.2. -/
def doubleOneFifth (α : Type) [LinearOrderedField α] : α :=
  3602879701896397 / 18014398509481984

/-- Parameters whose stiffness and damping are the rank-one positive
semidefinite matrix `v vᵀ` with `v = (1, 3, 0, 0, 0, 0)`, everything else
zero. -/
def rankOneParams (α : Type) [LinearOrderedField α] : Params α :=
  { nullspace_stiffness := 0,
    cartesian_stiffness := Matrix.of fun i j =>
      (![1, 3, 0, 0, 0, 0] : Fin 6 → α) i * (![1, 3, 0, 0, 0, 0] : Fin 6 → α) j,
    cartesian_damping := Matrix.of fun i j =>
      (![1, 3, 0, 0, 0, 0] : Fin 6 → α) i * (![1, 3, 0, 0, 0, 0] : Fin 6 → α) j,
    q_d_nullspace := fun _ => 0,
    position_d := fun _ => 0,
    orientation_d := { w := 1, x := 0, y := 0, z := 0 } }

/-- Exact arithmetic: for a non-negative `delta_tau_max_`, every joint of the vector returned
by `saturateTorqueRate` is within `delta_tau_max_` of the value `tau_J_d` had on
entry. -/
theorem saturateTorqueRate_slew_bound {α : Type} [LinearOrderedField α]
    (tau_d_calculated tau_J_d : Vec7 α) (delta_tau_max_ : α)
    (hmax : 0 ≤ delta_tau_max_) (i : Fin 7) :
    |(saturateTorqueRate tau_d_calculated tau_J_d delta_tau_max_).ret i - tau_J_d i|
      ≤ delta_tau_max_ := by
  simp only [saturateTorqueRate, tau_d_saturated, add_sub_cancel_left]
  rw [abs_le]
  refine ⟨le_max_right _ _, max_le (min_le_right _ _) ?_⟩
  linarith

/-! ### Shared lemmas -/

/-- The vector part of `a * a⁻¹` vanishes for every quaternion `a`. -/
lemma Quat.mul_inverse_self_vec {α : Type} [LinearOrderedField α] (a : Quat α) :
    (a.mul a.inverse).x = 0 ∧ (a.mul a.inverse).y = 0 ∧ (a.mul a.inverse).z = 0 := by
  unfold Quat.inverse
  by_cases h : 0 < a.squaredNorm
  · simp only [h, if_true, Quat.mul, Quat.conjugate]
    refine ⟨?_, ?_, ?_⟩ <;> ring
  · simp only [h, if_false, Quat.mul]
    refine ⟨?_, ?_, ?_⟩ <;> ring

/-- A 6-vector is zero exactly when its head and its tail are. -/
lemma headTail_eq_zero_iff {α : Type} [Zero α] (h t : Vec3 α) :
    headTail h t = 0 ↔ (∀ i, h i = 0) ∧ (∀ i, t i = 0) := by
  constructor
  · intro H
    have e : ∀ k : Fin 6, headTail h t k = 0 := fun k => by rw [H]; rfl
    refine ⟨fun i => ?_, fun i => ?_⟩ <;> fin_cases i
    exacts [e 0, e 1, e 2, e 3, e 4, e 5]
  · rintro ⟨hh, ht⟩
    funext k
    fin_cases k
    exacts [hh 0, hh 1, hh 2, ht 0, ht 1, ht 2]

/-- A quaternion with vanishing vector part has zero orientation error. -/
lemma AngleAxis.ofQuat_axis_mul_angle_of_vec_zero {α : Type} [LinearOrderedField α]
    (sqrt : α → α) (atan2 : α → α → α) (q : Quat α)
    (hx : q.x = 0) (hy : q.y = 0) (hz : q.z = 0) (i : Fin 3) :
    (AngleAxis.ofQuat sqrt atan2 q).axis i * (AngleAxis.ofQuat sqrt atan2 q).angle = 0 := by
  unfold AngleAxis.ofQuat
  simp only [hx, hy, hz]
  split_ifs <;> fin_cases i <;> simp

/-- The coefficient dot product of a quaternion with itself is not negative. -/
lemma Quat.coeffsDot_self_nonneg {α : Type} [LinearOrderedField α] (a : Quat α) :
    ¬ a.coeffsDot a < 0 := by
  unfold Quat.coeffsDot
  nlinarith [mul_self_nonneg a.x, mul_self_nonneg a.y, mul_self_nonneg a.z,
    mul_self_nonneg a.w]

/-- The pose error of a pose against itself is the zero 6-vector. -/
lemma poseError_self {α : Type} [LinearOrderedField α]
    (sqrt : α → α) (atan2 : α → α → α) (p : Vec3 α) (o : Quat α) :
    (poseError sqrt atan2 p o p o).error = 0 := by
  obtain ⟨hx, hy, hz⟩ := Quat.mul_inverse_self_vec o
  have h := AngleAxis.ofQuat_axis_mul_angle_of_vec_zero sqrt atan2 _ hx hy hz
  simp only [poseError, if_neg (Quat.coeffsDot_self_nonneg o)]
  rw [headTail_eq_zero_iff]
  exact ⟨fun i => sub_self _, h⟩

/-- Exact arithmetic: at equilibrium (current pose equal to the desired pose with a unit
orientation, `dq = 0`, `q = q_d_nullspace_`, non-negative nullspace stiffness),
`update_control` writes the zero vector to `tau_task`, `tau_nullspace` and
`tau_d`, for every Jacobian, stiffness, damping and pseudo-inverse. -/
theorem update_control_equilibrium {α : Type} [LinearOrderedField α]
    (sqrt : α → α) (atan2 : α → α → α)
    (pseudoInverse : Matrix (Fin 7) (Fin 6) α → Matrix (Fin 6) (Fin 7) α)
    (self : Controller α) (position_d_ : Vec3 α) (orientation_d_ : Quat α)
    (jacobian : Matrix (Fin 6) (Fin 7) α)
    (_hns : 0 ≤ self.nullspace_stiffness_) (_hunit : orientation_d_.squaredNorm = 1) :
    (update_control sqrt atan2 pseudoInverse self self.q_d_nullspace_ 0
        position_d_ orientation_d_ position_d_ orientation_d_ jacobian).tau_task = 0
    ∧ (update_control sqrt atan2 pseudoInverse self self.q_d_nullspace_ 0
        position_d_ orientation_d_ position_d_ orientation_d_ jacobian).tau_nullspace = 0
    ∧ (update_control sqrt atan2 pseudoInverse self self.q_d_nullspace_ 0
        position_d_ orientation_d_ position_d_ orientation_d_ jacobian).tau_d = 0 := by
  have he := poseError_self sqrt atan2 position_d_ orientation_d_
  have h1 : (update_control sqrt atan2 pseudoInverse self self.q_d_nullspace_ 0
        position_d_ orientation_d_ position_d_ orientation_d_ jacobian).tau_task = 0 := by
    simp only [update_control, he]
    simp
  have h2 : (update_control sqrt atan2 pseudoInverse self self.q_d_nullspace_ 0
        position_d_ orientation_d_ position_d_ orientation_d_ jacobian).tau_nullspace = 0 := by
    simp only [update_control]
    simp
  refine ⟨h1, h2, ?_⟩
  have h3 : (update_control sqrt atan2 pseudoInverse self self.q_d_nullspace_ 0
        position_d_ orientation_d_ position_d_ orientation_d_ jacobian).tau_d
      = (update_control sqrt atan2 pseudoInverse self self.q_d_nullspace_ 0
        position_d_ orientation_d_ position_d_ orientation_d_ jacobian).tau_task
      + (update_control sqrt atan2 pseudoInverse self self.q_d_nullspace_ 0
        position_d_ orientation_d_ position_d_ orientation_d_ jacobian).tau_nullspace := rfl
  rw [h3, h1, h2, add_zero]

/-! ### Pose error -/

/-- For a unit quaternion the inverse is the conjugate. -/
lemma Quat.inverse_of_unit {α : Type} [LinearOrderedField α] (b : Quat α)
    (hb : b.squaredNorm = 1) : b.inverse = b.conjugate := by
  unfold Quat.inverse
  simp [hb]

/-- Negating the coefficients twice gives the quaternion back. -/
lemma Quat.negCoeffs_negCoeffs {α : Type} [LinearOrderedField α] (a : Quat α) :
    a.negCoeffs.negCoeffs = a := by
  ext <;> simp [Quat.negCoeffs]

/-- Negating the coefficients keeps the squared norm. -/
lemma Quat.squaredNorm_negCoeffs {α : Type} [LinearOrderedField α] (a : Quat α) :
    a.negCoeffs.squaredNorm = a.squaredNorm := by
  simp [Quat.negCoeffs, Quat.squaredNorm]

/-- Negating the second argument negates the coefficient dot product. -/
lemma Quat.coeffsDot_negCoeffs {α : Type} [LinearOrderedField α] (a b : Quat α) :
    a.coeffsDot b.negCoeffs = -a.coeffsDot b := by
  simp only [Quat.negCoeffs, Quat.coeffsDot]
  ring

/-- For unit quaternions on the same hemisphere, the difference quaternion has a
vanishing vector part exactly when the two are equal. -/
lemma Quat.mul_inverse_vec_eq_zero_iff {α : Type} [LinearOrderedField α] (a b : Quat α)
    (ha : a.squaredNorm = 1) (hb : b.squaredNorm = 1) (hdot : ¬ b.coeffsDot a < 0) :
    ((a.mul b.inverse).x = 0 ∧ (a.mul b.inverse).y = 0 ∧ (a.mul b.inverse).z = 0)
      ↔ a = b := by
  constructor
  · rw [Quat.inverse_of_unit b hb]
    simp only [Quat.mul, Quat.conjugate]
    rintro ⟨hx, hy, hz⟩
    simp only [Quat.squaredNorm] at ha hb
    simp only [Quat.coeffsDot, not_lt] at hdot
    set d := b.x * a.x + b.y * a.y + b.z * a.z + b.w * a.w with hd
    have ew : a.w = d * b.w := by
      linear_combination (-(a.w)) * hb - b.x * hx - b.y * hy - b.z * hz
    have ex : a.x = d * b.x := by
      linear_combination (-(a.x)) * hb + b.w * hx + b.z * hy - b.y * hz
    have ey : a.y = d * b.y := by
      linear_combination (-(a.y)) * hb - b.z * hx + b.w * hy + b.x * hz
    have ez : a.z = d * b.z := by
      linear_combination (-(a.z)) * hb + b.y * hx - b.x * hy + b.w * hz
    have hdd : d * d = 1 := by
      have : a.x * a.x + a.y * a.y + a.z * a.z + a.w * a.w
          = d * d * (b.x * b.x + b.y * b.y + b.z * b.z + b.w * b.w) := by
        rw [ew, ex, ey, ez]; ring
      rw [ha, hb, mul_one] at this
      exact this.symm
    have hd1 : d = 1 := by
      have h0 : (d - 1) * (d + 1) = 0 := by linear_combination hdd
      rcases mul_eq_zero.mp h0 with h | h
      · linarith
      · linarith
    rw [hd1, one_mul] at ew ex ey ez
    exact Quat.ext ew ex ey ez
  · rintro rfl
    exact Quat.mul_inverse_self_vec a

/-- Over the reals the orientation error `axis * angle` vanishes exactly when
the vector part of the difference quaternion does. -/
lemma AngleAxis.ofQuat_real_eq_zero_iff (e : Quat ℝ) :
    (∀ i : Fin 3, (AngleAxis.ofQuat Real.sqrt atan2R e).axis i
        * (AngleAxis.ofQuat Real.sqrt atan2R e).angle = 0)
      ↔ (e.x = 0 ∧ e.y = 0 ∧ e.z = 0) := by
  constructor
  · intro H
    by_cases hn : Real.sqrt (e.x * e.x + e.y * e.y + e.z * e.z) ≠ 0
    · have hpos : 0 < Real.sqrt (e.x * e.x + e.y * e.y + e.z * e.z) :=
        lt_of_le_of_ne (Real.sqrt_nonneg _) (Ne.symm hn)
      have hang : (2 : ℝ) * atan2R (Real.sqrt (e.x * e.x + e.y * e.y + e.z * e.z)) |e.w| ≠ 0 := by
        intro h0
        have h1 : atan2R (Real.sqrt (e.x * e.x + e.y * e.y + e.z * e.z)) |e.w| = 0 := by
          linarith
        unfold atan2R at h1
        rw [Complex.arg_eq_zero_iff] at h1
        exact hn h1.2
      have hn' : (if e.w < 0 then -Real.sqrt (e.x * e.x + e.y * e.y + e.z * e.z)
          else Real.sqrt (e.x * e.x + e.y * e.y + e.z * e.z)) ≠ 0 := by
        split_ifs
        · exact neg_ne_zero.mpr hn
        · exact hn
      have H0 := H 0
      have H1 := H 1
      have H2 := H 2
      simp only [AngleAxis.ofQuat, if_pos hn] at H0 H1 H2
      simp only [Matrix.cons_val_zero, Matrix.cons_val_one, Matrix.head_cons,
        Matrix.cons_val_two, Matrix.tail_cons] at H0 H1 H2
      refine ⟨?_, ?_, ?_⟩
      · rcases mul_eq_zero.mp H0 with h | h
        · exact (div_eq_zero_iff.mp h).resolve_right hn'
        · exact absurd h hang
      · rcases mul_eq_zero.mp H1 with h | h
        · exact (div_eq_zero_iff.mp h).resolve_right hn'
        · exact absurd h hang
      · rcases mul_eq_zero.mp H2 with h | h
        · exact (div_eq_zero_iff.mp h).resolve_right hn'
        · exact absurd h hang
    · rw [not_not, Real.sqrt_eq_zero'] at hn
      refine ⟨?_, ?_, ?_⟩ <;>
        nlinarith [mul_self_nonneg e.x, mul_self_nonneg e.y, mul_self_nonneg e.z]
  · rintro ⟨hx, hy, hz⟩ i
    exact AngleAxis.ofQuat_axis_mul_angle_of_vec_zero Real.sqrt atan2R e hx hy hz i

/-- Exact arithmetic: for unit quaternions, the 6-vector pose error of `update_control` is
zero exactly when the positions are equal and the current orientation is the
desired one or its negation; in particular it is zero when the current pose
equals the desired pose. -/
theorem poseError_eq_zero_iff (p p_d : Vec3 ℝ) (q q_d : Quat ℝ)
    (hq : q.squaredNorm = 1) (hqd : q_d.squaredNorm = 1) :
    ((poseError Real.sqrt atan2R p q p_d q_d).error = 0
        ↔ (p = p_d ∧ (q = q_d ∨ q = q_d.negCoeffs)))
      ∧ (poseError Real.sqrt atan2R p_d q_d p_d q_d).error = 0 := by
  refine ⟨?_, poseError_self Real.sqrt atan2R p_d q_d⟩
  have hpos : (∀ i : Fin 3, p i - p_d i = 0) ↔ p = p_d :=
    ⟨fun h => funext fun i => sub_eq_zero.mp (h i), fun h i => by rw [h, sub_self]⟩
  have hself : ¬ q_d.coeffsDot q_d < 0 := Quat.coeffsDot_self_nonneg q_d
  have hnegself : q_d.coeffsDot q_d.negCoeffs < 0 := by
    rw [Quat.coeffsDot_negCoeffs]
    have : q_d.coeffsDot q_d = 1 := hqd
    rw [this]
    norm_num
  by_cases hdot : q_d.coeffsDot q < 0
  · have hdot' : ¬ q_d.coeffsDot q.negCoeffs < 0 := by
      rw [Quat.coeffsDot_negCoeffs]
      linarith
    have hq' : q.negCoeffs.squaredNorm = 1 := by rw [Quat.squaredNorm_negCoeffs, hq]
    simp only [poseError, if_pos hdot]
    rw [headTail_eq_zero_iff, hpos, AngleAxis.ofQuat_real_eq_zero_iff,
      Quat.mul_inverse_vec_eq_zero_iff _ _ hq' hqd hdot']
    constructor
    · rintro ⟨h1, h2⟩
      refine ⟨h1, Or.inr ?_⟩
      rw [← h2, Quat.negCoeffs_negCoeffs]
    · rintro ⟨h1, h2 | h2⟩
      · rw [h2] at hdot
        exact absurd hdot hself
      · refine ⟨h1, ?_⟩
        rw [h2, Quat.negCoeffs_negCoeffs]
  · simp only [poseError, if_neg hdot]
    rw [headTail_eq_zero_iff, hpos, AngleAxis.ofQuat_real_eq_zero_iff,
      Quat.mul_inverse_vec_eq_zero_iff _ _ hq hqd hdot]
    constructor
    · rintro ⟨h1, h2⟩
      exact ⟨h1, Or.inl h2⟩
    · rintro ⟨h1, h2 | h2⟩
      · exact ⟨h1, h2⟩
      · rw [h2] at hdot
        exact absurd hnegself hdot

/-- C4 as stated fails: with the desired orientation the identity and the
current orientation a half turn about X (coefficient dot product zero) no
sign fix runs for `q` nor for `-q`, and the two errors have orientation parts
`(π, 0, 0)` and `(-π, 0, 0)`. -/
theorem poseError_negCoeffs_counterexample :
    (Quat.mk (0 : ℝ) 1 0 0).squaredNorm = 1 ∧ (Quat.mk (1 : ℝ) 0 0 0).squaredNorm = 1
      ∧ (poseError Real.sqrt atan2R 0 (Quat.mk 0 1 0 0) 0 (Quat.mk 1 0 0 0)).error 3
          = Real.pi
      ∧ (poseError Real.sqrt atan2R 0 (Quat.mk 0 1 0 0).negCoeffs 0
          (Quat.mk 1 0 0 0)).error 3 = -Real.pi
      ∧ (poseError Real.sqrt atan2R 0 (Quat.mk 0 1 0 0).negCoeffs 0 (Quat.mk 1 0 0 0)).error
          ≠ (poseError Real.sqrt atan2R 0 (Quat.mk 0 1 0 0) 0 (Quat.mk 1 0 0 0)).error := by
  have harg : atan2R 1 0 = Real.pi / 2 := by
    unfold atan2R
    have h : (⟨0, 1⟩ : ℂ) = Complex.I := rfl
    rw [h, Complex.arg_I]
  have e1 : (poseError Real.sqrt atan2R 0 (Quat.mk 0 1 0 0) 0 (Quat.mk 1 0 0 0)).error 3
      = Real.pi := by
    simp [poseError, Quat.coeffsDot, Quat.inverse, Quat.squaredNorm, Quat.conjugate,
      Quat.mul, AngleAxis.ofQuat, headTail, harg]
    ring
  have e2 : (poseError Real.sqrt atan2R 0 (Quat.mk 0 1 0 0).negCoeffs 0
      (Quat.mk 1 0 0 0)).error 3 = -Real.pi := by
    simp [poseError, Quat.coeffsDot, Quat.negCoeffs, Quat.inverse, Quat.squaredNorm,
      Quat.conjugate, Quat.mul, AngleAxis.ofQuat, headTail, harg]
    ring
  refine ⟨by norm_num [Quat.squaredNorm], by norm_num [Quat.squaredNorm], e1, e2, ?_⟩
  intro h
  have h3 := congrFun h 3
  rw [e1, e2] at h3
  linarith [Real.pi_pos]

/-- C4 amended: when the coefficient dot product of the desired and the current
orientation is not zero, `update_control` computes the same 6-vector error for
the current orientation `-q` as for `q`. -/
theorem poseError_negCoeffs {α : Type} [LinearOrderedField α]
    (sqrt : α → α) (atan2 : α → α → α) (p p_d : Vec3 α) (q q_d : Quat α)
    (_hq : q.squaredNorm = 1) (_hqd : q_d.squaredNorm = 1)
    (hdot : q_d.coeffsDot q ≠ 0) :
    (poseError sqrt atan2 p q.negCoeffs p_d q_d).error
      = (poseError sqrt atan2 p q p_d q_d).error := by
  rcases lt_or_gt_of_ne hdot with h | h
  · have h' : ¬ q_d.coeffsDot q.negCoeffs < 0 := by
      rw [Quat.coeffsDot_negCoeffs]; linarith
    simp only [poseError, if_pos h, if_neg h', Quat.negCoeffs_negCoeffs]
  · have h' : q_d.coeffsDot q.negCoeffs < 0 := by
      rw [Quat.coeffsDot_negCoeffs]; linarith
    have h'' : ¬ q_d.coeffsDot q < 0 := by linarith
    simp only [poseError, if_pos h', if_neg h'', Quat.negCoeffs_negCoeffs]

/-- Witness of the amended C4 over the rationals: a quarter-angle pair with
coefficient dot product `4 / 5`. -/
theorem poseError_negCoeffs_witness :
    (Quat.mk (4 / 5 : ℚ) (3 / 5) 0 0).squaredNorm = 1
      ∧ (Quat.mk (1 : ℚ) 0 0 0).squaredNorm = 1
      ∧ (Quat.mk (1 : ℚ) 0 0 0).coeffsDot (Quat.mk (4 / 5) (3 / 5) 0 0) ≠ 0
      ∧ (poseError id (fun y _ => y) ![1, 0, 0] (Quat.mk (4 / 5 : ℚ) (3 / 5) 0 0).negCoeffs
          ![0, 0, 0] (Quat.mk 1 0 0 0)).error
        = (poseError id (fun y _ => y) ![1, 0, 0] (Quat.mk (4 / 5 : ℚ) (3 / 5) 0 0)
          ![0, 0, 0] (Quat.mk 1 0 0 0)).error :=
  ⟨by norm_num [Quat.squaredNorm], by norm_num [Quat.squaredNorm],
    by norm_num [Quat.coeffsDot],
    poseError_negCoeffs id (fun y _ => y) ![1, 0, 0] ![0, 0, 0] (Quat.mk (4 / 5) (3 / 5) 0 0)
      (Quat.mk 1 0 0 0) (by norm_num [Quat.squaredNorm]) (by norm_num [Quat.squaredNorm])
      (by norm_num [Quat.coeffsDot])⟩

/-! ### Compliance builder -/

/-- The stiffness target written by `update_compliance` is `diag(Kt, Kr)`. -/
lemma update_compliance_stiffness {α : Type} [LinearOrderedField α] (sqrt : α → α)
    (self : Controller α) (Kt Kr : Vec3 α) (ns : α) (S0 D0 : Mat66 α) :
    (update_compliance sqrt self Kt Kr ns S0 D0).cartesian_stiffness_target_
      = Matrix.diagonal ![Kt 0, Kt 1, Kt 2, Kr 0, Kr 1, Kr 2] := by
  ext i j
  fin_cases i <;> fin_cases j <;> rfl

/-- Over the reals the damping target written by `update_compliance` is
`diag(2 sqrt Kt, 2 sqrt Kr)`. -/
lemma update_compliance_damping (self : Controller ℝ) (Kt Kr : Vec3 ℝ) (ns : ℝ)
    (S0 D0 : Mat66 ℝ) :
    (update_compliance Real.sqrt self Kt Kr ns S0 D0).cartesian_damping_target_
      = Matrix.diagonal ![2 * Real.sqrt (Kt 0), 2 * Real.sqrt (Kt 1), 2 * Real.sqrt (Kt 2),
          2 * Real.sqrt (Kr 0), 2 * Real.sqrt (Kr 1), 2 * Real.sqrt (Kr 2)] := by
  ext i j
  fin_cases i <;> fin_cases j <;>
    first
      | rfl
      | (show (2 : ℝ) * Real.sqrt 0 = 0
         rw [Real.sqrt_zero, mul_zero])

/-- C5: for non-negative `Kt` and `Kr`, whatever the two output matrices held,
`update_compliance` writes the stiffness target `diag(Kt, Kr)`, the damping
target `diag(2 sqrt Kt, 2 sqrt Kr)`, both with zero off-diagonal entries and
symmetric, and stores the `nullspace_stiffness` argument in
`nullspace_stiffness_target_`. -/
theorem update_compliance_diagonal (self : Controller ℝ)
    (translational_stiffness rotational_stiffness : Vec3 ℝ) (nullspace_stiffness : ℝ)
    (stiffness_before damping_before : Mat66 ℝ)
    (_hKt : ∀ i, 0 ≤ translational_stiffness i)
    (_hKr : ∀ i, 0 ≤ rotational_stiffness i) :
    (update_compliance Real.sqrt self translational_stiffness rotational_stiffness
        nullspace_stiffness stiffness_before damping_before).cartesian_stiffness_target_
      = Matrix.diagonal ![translational_stiffness 0, translational_stiffness 1,
          translational_stiffness 2, rotational_stiffness 0, rotational_stiffness 1,
          rotational_stiffness 2]
    ∧ (update_compliance Real.sqrt self translational_stiffness rotational_stiffness
        nullspace_stiffness stiffness_before damping_before).cartesian_damping_target_
      = Matrix.diagonal ![2 * Real.sqrt (translational_stiffness 0),
          2 * Real.sqrt (translational_stiffness 1),
          2 * Real.sqrt (translational_stiffness 2),
          2 * Real.sqrt (rotational_stiffness 0),
          2 * Real.sqrt (rotational_stiffness 1),
          2 * Real.sqrt (rotational_stiffness 2)]
    ∧ (∀ i j, i ≠ j →
        (update_compliance Real.sqrt self translational_stiffness rotational_stiffness
          nullspace_stiffness stiffness_before damping_before).cartesian_stiffness_target_ i j
          = 0
        ∧ (update_compliance Real.sqrt self translational_stiffness rotational_stiffness
          nullspace_stiffness stiffness_before damping_before).cartesian_damping_target_ i j
          = 0)
    ∧ (update_compliance Real.sqrt self translational_stiffness rotational_stiffness
        nullspace_stiffness stiffness_before damping_before).cartesian_stiffness_target_.transpose
      = (update_compliance Real.sqrt self translational_stiffness rotational_stiffness
        nullspace_stiffness stiffness_before damping_before).cartesian_stiffness_target_
    ∧ (update_compliance Real.sqrt self translational_stiffness rotational_stiffness
        nullspace_stiffness stiffness_before damping_before).cartesian_damping_target_.transpose
      = (update_compliance Real.sqrt self translational_stiffness rotational_stiffness
        nullspace_stiffness stiffness_before damping_before).cartesian_damping_target_
    ∧ (update_compliance Real.sqrt self translational_stiffness rotational_stiffness
        nullspace_stiffness stiffness_before damping_before).self.nullspace_stiffness_target_
      = nullspace_stiffness := by
  have hS := update_compliance_stiffness Real.sqrt self translational_stiffness
    rotational_stiffness nullspace_stiffness stiffness_before damping_before
  have hD := update_compliance_damping self translational_stiffness
    rotational_stiffness nullspace_stiffness stiffness_before damping_before
  refine ⟨hS, hD, ?_, ?_, ?_, rfl⟩
  · intro i j hij
    rw [hS, hD]
    exact ⟨Matrix.diagonal_apply_ne _ hij, Matrix.diagonal_apply_ne _ hij⟩
  · rw [hS, Matrix.diagonal_transpose]
  · rw [hD, Matrix.diagonal_transpose]

/-- Witness of C5: the stiffness vectors of the end-to-end scenario. -/
theorem update_compliance_diagonal_witness :
    (∀ i, (0 : ℝ) ≤ (![200, 200, 200] : Vec3 ℝ) i) ∧ (∀ i, (0 : ℝ) ≤ (![20, 20, 20] : Vec3 ℝ) i)
      ∧ (update_compliance Real.sqrt (scenario ℝ) ![200, 200, 200] ![20, 20, 20] 10 0
          0).self.nullspace_stiffness_target_ = 10 :=
  ⟨fun i => by fin_cases i <;> norm_num, fun i => by fin_cases i <;> norm_num,
    (update_compliance_diagonal (scenario ℝ) ![200, 200, 200] ![20, 20, 20] 10 0 0
      (fun i => by fin_cases i <;> norm_num)
      (fun i => by fin_cases i <;> norm_num)).2.2.2.2.2⟩

/-! ### Parameter smoothing -/

/-- A convex combination of symmetric positive-semidefinite matrices is
symmetric positive-semidefinite. -/
lemma IsSymmPSD.filter {α : Type} [LinearOrderedField α] {n : Nat}
    (a : α) (T K : Matrix (Fin n) (Fin n) α) (ha0 : 0 < a) (ha1 : a ≤ 1)
    (hT : IsSymmPSD T) (hK : IsSymmPSD K) : IsSymmPSD (a • T + (1 - a) • K) := by
  constructor
  · rw [Matrix.transpose_add, Matrix.transpose_smul, Matrix.transpose_smul, hT.1, hK.1]
  · intro v
    rw [Matrix.add_mulVec, Matrix.smul_mulVec_assoc, Matrix.smul_mulVec_assoc,
      Matrix.dotProduct_add, Matrix.dotProduct_smul, Matrix.dotProduct_smul]
    exact add_nonneg (mul_nonneg ha0.le (hT.2 v)) (mul_nonneg (by linarith) (hK.2 v))

/-- A diagonal matrix with non-negative entries is symmetric
positive-semidefinite. -/
lemma IsSymmPSD.diagonal {α : Type} [LinearOrderedField α] {n : Nat}
    (d : Fin n → α) (hd : ∀ i, 0 ≤ d i) : IsSymmPSD (Matrix.diagonal d) := by
  constructor
  · exact Matrix.diagonal_transpose d
  · intro v
    unfold Matrix.dotProduct
    apply Finset.sum_nonneg
    intro i _
    rw [Matrix.mulVec_diagonal]
    nlinarith [hd i, mul_self_nonneg (v i)]

/-- Exact arithmetic: for a filter parameter in (0,1], `update_parameters` maps symmetric
positive-semidefinite live and target stiffness and damping to symmetric
positive-semidefinite live stiffness and damping (reference parameters and
object fields); and the targets `update_compliance` writes for non-negative
`Kt`, `Kr` are symmetric positive-semidefinite. -/
theorem symmetric_psd_invariant :
    (∀ (slerp : Quat ℝ → ℝ → Quat ℝ → Quat ℝ) (self : Controller ℝ) (filter_params_ : ℝ)
        (live target : Params ℝ),
        0 < filter_params_ → filter_params_ ≤ 1 →
        IsSymmPSD live.cartesian_stiffness → IsSymmPSD live.cartesian_damping →
        IsSymmPSD target.cartesian_stiffness → IsSymmPSD target.cartesian_damping →
        IsSymmPSD
            (update_parameters slerp self filter_params_ live target).live.cartesian_stiffness
          ∧ IsSymmPSD
            (update_parameters slerp self filter_params_ live target).live.cartesian_damping
          ∧ IsSymmPSD
            (update_parameters slerp self filter_params_ live target).self.cartesian_stiffness_
          ∧ IsSymmPSD
            (update_parameters slerp self filter_params_ live target).self.cartesian_damping_)
      ∧ (∀ (self : Controller ℝ) (translational_stiffness rotational_stiffness : Vec3 ℝ)
          (nullspace_stiffness : ℝ) (stiffness_before damping_before : Mat66 ℝ),
          (∀ i, 0 ≤ translational_stiffness i) → (∀ i, 0 ≤ rotational_stiffness i) →
          IsSymmPSD (update_compliance Real.sqrt self translational_stiffness
              rotational_stiffness nullspace_stiffness stiffness_before
              damping_before).cartesian_stiffness_target_
            ∧ IsSymmPSD (update_compliance Real.sqrt self translational_stiffness
              rotational_stiffness nullspace_stiffness stiffness_before
              damping_before).cartesian_damping_target_) := by
  constructor
  · intro slerp self a live target ha0 ha1 hK hD hKt hDt
    have h1 := IsSymmPSD.filter a _ _ ha0 ha1 hKt hK
    have h2 := IsSymmPSD.filter a _ _ ha0 ha1 hDt hD
    exact ⟨h1, h2, h1, h2⟩
  · intro self Kt Kr ns S0 D0 hKt hKr
    rw [update_compliance_stiffness, update_compliance_damping]
    constructor
    · apply IsSymmPSD.diagonal
      intro i
      fin_cases i
      exacts [hKt 0, hKt 1, hKt 2, hKr 0, hKr 1, hKr 2]
    · apply IsSymmPSD.diagonal
      intro i
      fin_cases i <;> exact mul_nonneg (by norm_num) (Real.sqrt_nonneg _)

/-- C8: with `filter_params_ = 1` a single call of `update_parameters` leaves
the stiffness, damping, nullspace stiffness, nullspace reference and desired
position equal to their targets, in the reference parameters and in the
object's fields, whatever they held before. -/
theorem update_parameters_one {α : Type} [LinearOrderedField α]
    (slerp : Quat α → α → Quat α → Quat α) (self : Controller α) (live target : Params α) :
    ((update_parameters slerp self 1 live target).live.cartesian_stiffness
        = target.cartesian_stiffness
      ∧ (update_parameters slerp self 1 live target).live.cartesian_damping
        = target.cartesian_damping
      ∧ (update_parameters slerp self 1 live target).live.nullspace_stiffness
        = target.nullspace_stiffness
      ∧ (update_parameters slerp self 1 live target).live.q_d_nullspace
        = target.q_d_nullspace
      ∧ (update_parameters slerp self 1 live target).live.position_d
        = target.position_d)
    ∧ ((update_parameters slerp self 1 live target).self.cartesian_stiffness_
        = target.cartesian_stiffness
      ∧ (update_parameters slerp self 1 live target).self.cartesian_damping_
        = target.cartesian_damping
      ∧ (update_parameters slerp self 1 live target).self.nullspace_stiffness_
        = target.nullspace_stiffness
      ∧ (update_parameters slerp self 1 live target).self.q_d_nullspace_
        = target.q_d_nullspace
      ∧ (update_parameters slerp self 1 live target).self.position_d_
        = target.position_d) := by
  simp [update_parameters]

/-- A sequence that follows the filter recurrence converges geometrically. -/
lemma convergesGeometrically_of_step (a t : ℝ) (c : Nat → ℝ) (ha0 : 0 < a) (ha1 : a < 1)
    (hstep : ∀ n, c (n + 1) = a * t + (1 - a) * c n) : ConvergesGeometrically a t c := by
  have hr0 : 0 < 1 - a := by linarith
  have hr1 : 1 - a < 1 := by linarith
  have hpow : ∀ n, c n - t = (1 - a) ^ n * (c 0 - t) := by
    intro n
    induction n with
    | zero => simp
    | succ k ih =>
      rw [hstep k, pow_succ]
      linear_combination (1 - a) * ih
  have hpp : ∀ n, 0 < (1 - a) ^ n := fun n => pow_pos hr0 n
  refine ⟨hpow, ?_, ?_, ?_, ?_, ?_⟩
  · intro n h
    rw [hpow n]
    exact mul_pos (hpp n) h
  · intro n h
    rw [hpow n]
    exact mul_neg_of_pos_of_neg (hpp n) h
  · intro n h
    have := hpow n
    rw [h, sub_self, mul_zero] at this
    linarith
  · intro n
    have e : c (n + 1) - t = (1 - a) * (c n - t) := by
      rw [hstep n]; ring
    rw [e, abs_mul, abs_of_pos hr0]
    exact mul_le_of_le_one_left (abs_nonneg _) hr1.le
  · have hlim : Filter.Tendsto (fun n : Nat => (1 - a) ^ n) Filter.atTop (nhds 0) :=
      tendsto_pow_atTop_nhds_zero_of_lt_one hr0.le hr1
    have h2 : Filter.Tendsto (fun n : Nat => (1 - a) ^ n * (c 0 - t) + t) Filter.atTop
        (nhds (0 * (c 0 - t) + t)) :=
      (hlim.mul_const (c 0 - t)).add_const t
    rw [zero_mul, zero_add] at h2
    refine h2.congr fun n => ?_
    linarith [hpow n]

/-- Exact arithmetic: for a filter parameter `0 < a < 1` and fixed targets, every scalar
component `c` of the linearly filtered values (stiffness matrix, damping
matrix, nullspace stiffness, nullspace reference, desired position) satisfies
after `n` successive calls of `update_parameters`
`c_n - target = (1 - a)^n * (c_0 - target)`, stays on the same side of the
target, has `|c_n - target|` non-increasing and tends to the target. -/
theorem update_parameters_monotone_convergence
    (slerp : Quat ℝ → ℝ → Quat ℝ → Quat ℝ) (filter_params_ : ℝ) (target : Params ℝ)
    (self : Controller ℝ) (live : Params ℝ)
    (ha0 : 0 < filter_params_) (ha1 : filter_params_ < 1) :
    (∀ i j, ConvergesGeometrically filter_params_ (target.cartesian_stiffness i j)
      (fun n => (update_parameters_iterate slerp filter_params_ target self live
        n).live.cartesian_stiffness i j))
    ∧ (∀ i j, ConvergesGeometrically filter_params_ (target.cartesian_damping i j)
      (fun n => (update_parameters_iterate slerp filter_params_ target self live
        n).live.cartesian_damping i j))
    ∧ ConvergesGeometrically filter_params_ target.nullspace_stiffness
      (fun n => (update_parameters_iterate slerp filter_params_ target self live
        n).live.nullspace_stiffness)
    ∧ (∀ i, ConvergesGeometrically filter_params_ (target.q_d_nullspace i)
      (fun n => (update_parameters_iterate slerp filter_params_ target self live
        n).live.q_d_nullspace i))
    ∧ (∀ i, ConvergesGeometrically filter_params_ (target.position_d i)
      (fun n => (update_parameters_iterate slerp filter_params_ target self live
        n).live.position_d i)) := by
  refine ⟨fun i j => ?_, fun i j => ?_, ?_, fun i => ?_, fun i => ?_⟩ <;>
    refine convergesGeometrically_of_step _ _ _ ha0 ha1 fun n => ?_ <;>
    simp [update_parameters_iterate, update_parameters, Matrix.add_apply, Matrix.smul_apply,
      smul_eq_mul]

/-! ### Torque rate limiter: frame -/

/-- C10: after `saturateTorqueRate` the carried state `tau_J_d` equals the
returned vector on every joint, the returned value is the previous command
plus the difference clamped to `[-delta_tau_max_, delta_tau_max_]`, and
`tau_d_calculated` is not modified. -/
theorem saturateTorqueRate_persists {α : Type} [LinearOrderedField α]
    (tau_d_calculated tau_J_d : Vec7 α) (delta_tau_max_ : α) :
    (∀ i, (saturateTorqueRate tau_d_calculated tau_J_d delta_tau_max_).tau_J_d i
        = (saturateTorqueRate tau_d_calculated tau_J_d delta_tau_max_).ret i)
      ∧ (∀ i, (saturateTorqueRate tau_d_calculated tau_J_d delta_tau_max_).ret i
        = tau_J_d i
          + max (min (tau_d_calculated i - tau_J_d i) delta_tau_max_) (-delta_tau_max_))
      ∧ (saturateTorqueRate tau_d_calculated tau_J_d delta_tau_max_).tau_d_calculated
        = tau_d_calculated :=
  ⟨fun _ => rfl, fun _ => rfl, rfl⟩

/-! ### Torque rate limiter: fixed point, direction, repeated calls -/

/-- The component that `saturateTorqueRate` returns. -/
lemma saturateTorqueRate_ret_apply {α : Type} [LinearOrderedField α]
    (d p : Vec7 α) (delta : α) (i : Fin 7) :
    (saturateTorqueRate d p delta).ret i
      = p i + max (min (d i - p i) delta) (-delta) := rfl

/-- The component of the carried state that `saturateTorqueRate` leaves. -/
lemma saturateTorqueRate_state_apply {α : Type} [LinearOrderedField α]
    (d p : Vec7 α) (delta : α) (i : Fin 7) :
    (saturateTorqueRate d p delta).tau_J_d i
      = p i + max (min (d i - p i) delta) (-delta) := rfl

/-- The clamp leaves a difference inside the limit unchanged. -/
lemma clamp_of_abs_le {α : Type} [LinearOrderedField α] (x delta : α)
    (h : |x| ≤ delta) : max (min x delta) (-delta) = x := by
  obtain ⟨h1, h2⟩ := abs_le.mp h
  rw [min_eq_left h2, max_eq_left h1]

/-- With a positive limit the clamp vanishes only at zero. -/
lemma clamp_eq_zero_iff {α : Type} [LinearOrderedField α] (x delta : α)
    (hd : 0 < delta) : max (min x delta) (-delta) = 0 ↔ x = 0 := by
  constructor
  · intro h
    rcases le_total x delta with h1 | h1
    · rw [min_eq_left h1] at h
      rcases le_total x (-delta) with h2 | h2
      · rw [max_eq_right h2] at h
        linarith
      · rw [max_eq_left h2] at h
        exact h
    · rw [min_eq_right h1, max_eq_left (by linarith)] at h
      linarith
  · rintro rfl
    exact clamp_of_abs_le 0 delta (by rw [abs_zero]; exact hd.le)

/-- One call brings the carried state one limit closer to the desired torque. -/
lemma clamp_step {α : Type} [LinearOrderedField α] (x delta b : α)
    (hd : 0 ≤ delta) (hb : 0 ≤ b) (h : |x| ≤ b + delta) :
    |x - max (min x delta) (-delta)| ≤ b := by
  obtain ⟨h1, h2⟩ := abs_le.mp h
  rw [abs_le]
  rcases le_total x delta with hx | hx
  · rw [min_eq_left hx]
    rcases le_total x (-delta) with hy | hy
    · rw [max_eq_right hy]
      constructor <;> linarith
    · rw [max_eq_left hy, sub_self]
      constructor <;> linarith
  · rw [min_eq_right hx, max_eq_left (by linarith)]
    constructor <;> linarith

/-- C11: for a non-negative limit, `saturateTorqueRate` called with
`tau_d_calculated = t` and `tau_J_d = t` returns `t` and leaves `tau_J_d`
equal to `t`. -/
theorem saturateTorqueRate_fixed_point {α : Type} [LinearOrderedField α]
    (t : Vec7 α) (delta_tau_max_ : α) (hmax : 0 ≤ delta_tau_max_) :
    (saturateTorqueRate t t delta_tau_max_).ret = t
      ∧ (saturateTorqueRate t t delta_tau_max_).tau_J_d = t := by
  have h : ∀ i, t i + max (min (t i - t i) delta_tau_max_) (-delta_tau_max_) = t i := by
    intro i
    rw [sub_self, clamp_of_abs_le 0 delta_tau_max_ (by rw [abs_zero]; exact hmax), add_zero]
  exact ⟨funext fun i => (saturateTorqueRate_ret_apply t t delta_tau_max_ i).trans (h i),
    funext fun i => (saturateTorqueRate_state_apply t t delta_tau_max_ i).trans (h i)⟩

/-- Witness of C11 over the rationals. -/
theorem saturateTorqueRate_fixed_point_witness :
    (0 : ℚ) ≤ 1
      ∧ (saturateTorqueRate (![1, -2, 3, 0, 5, -6, 7] : Vec7 ℚ) ![1, -2, 3, 0, 5, -6, 7] 1).ret
        = ![1, -2, 3, 0, 5, -6, 7] :=
  ⟨by norm_num,
    (saturateTorqueRate_fixed_point (![1, -2, 3, 0, 5, -6, 7] : Vec7 ℚ) 1 (by norm_num)).1⟩

/-- C12 as stated fails: from the zero command toward 1/2 on every joint with
limit 1 the first call does not clamp any joint (it returns the desired
torque), and the second call returns the same vector. -/
theorem saturateTorqueRate_twice_counterexample :
    (0 : ℚ) ≤ 1
      ∧ (saturateTorqueRate (fun _ => (1 / 2 : ℚ))
          (saturateTorqueRate (fun _ => (1 / 2 : ℚ)) (fun _ => 0) 1).tau_J_d 1).ret
        = (saturateTorqueRate (fun _ => (1 / 2 : ℚ)) (fun _ => 0) 1).ret
      ∧ ¬ ∃ i : Fin 7, |(fun _ => (1 / 2 : ℚ)) i - (fun _ => (0 : ℚ)) i| > 1 := by
  refine ⟨by norm_num, ?_, ?_⟩
  · funext i
    simp only [saturateTorqueRate_ret_apply, saturateTorqueRate_state_apply]
    norm_num
  · rintro ⟨i, hi⟩
    norm_num [abs_of_pos] at hi

/-- Exact arithmetic: for a non-negative limit, the second of two calls with the
same desired torque returns what the first returned exactly when the limit is
zero or the first call clamped no joint, that is
`|tau_desired i - tau_prev i| ≤ delta_tau_max_` on every joint. -/
theorem saturateTorqueRate_twice {α : Type} [LinearOrderedField α]
    (tau_desired tau_prev : Vec7 α) (delta_tau_max_ : α) (hmax : 0 ≤ delta_tau_max_) :
    (saturateTorqueRate tau_desired
        (saturateTorqueRate tau_desired tau_prev delta_tau_max_).tau_J_d delta_tau_max_).ret
      = (saturateTorqueRate tau_desired tau_prev delta_tau_max_).ret
    ↔ (delta_tau_max_ = 0 ∨ ∀ i, |tau_desired i - tau_prev i| ≤ delta_tau_max_) := by
  constructor
  · intro h
    rcases hmax.eq_or_lt with h0 | hpos
    · exact Or.inl h0.symm
    · right
      intro i
      have hi := congrFun h i
      simp only [saturateTorqueRate_ret_apply, saturateTorqueRate_state_apply] at hi
      have hz : max (min (tau_desired i
          - (tau_prev i + max (min (tau_desired i - tau_prev i) delta_tau_max_)
            (-delta_tau_max_))) delta_tau_max_) (-delta_tau_max_) = 0 := by
        linarith
      rw [clamp_eq_zero_iff _ _ hpos] at hz
      have hc : tau_desired i - tau_prev i
          = max (min (tau_desired i - tau_prev i) delta_tau_max_) (-delta_tau_max_) := by
        linarith
      rw [hc, abs_le]
      exact ⟨le_max_right _ _, max_le (min_le_right _ _) (by linarith)⟩
  · rintro (h0 | hall)
    · subst h0
      funext i
      simp only [saturateTorqueRate_ret_apply, saturateTorqueRate_state_apply, neg_zero]
      rw [max_eq_right (min_le_right _ _), max_eq_right (min_le_right _ _)]
      ring
    · funext i
      simp only [saturateTorqueRate_ret_apply, saturateTorqueRate_state_apply]
      rw [clamp_of_abs_le _ _ (hall i)]
      have e : tau_desired i - (tau_prev i + (tau_desired i - tau_prev i)) = 0 := by ring
      rw [e, clamp_of_abs_le 0 _ (by rw [abs_zero]; exact hmax)]
      ring

/-- Exact arithmetic: for a non-negative limit every returned component lies between the
previous command and the desired torque; when the desired torque is zero the
returned component is no larger in absolute value than the previous command
and has no sign opposite to it. -/
theorem saturateTorqueRate_between {α : Type} [LinearOrderedField α]
    (tau_d_calculated tau_J_d : Vec7 α) (delta_tau_max_ : α)
    (hmax : 0 ≤ delta_tau_max_) (i : Fin 7) :
    (min (tau_J_d i) (tau_d_calculated i)
        ≤ (saturateTorqueRate tau_d_calculated tau_J_d delta_tau_max_).ret i
      ∧ (saturateTorqueRate tau_d_calculated tau_J_d delta_tau_max_).ret i
        ≤ max (tau_J_d i) (tau_d_calculated i))
    ∧ (tau_d_calculated i = 0 →
        |(saturateTorqueRate tau_d_calculated tau_J_d delta_tau_max_).ret i| ≤ |tau_J_d i|
        ∧ 0 ≤ (saturateTorqueRate tau_d_calculated tau_J_d delta_tau_max_).ret i * tau_J_d i) := by
  rw [saturateTorqueRate_ret_apply]
  have key : (0 ≤ tau_d_calculated i - tau_J_d i
        ∧ 0 ≤ max (min (tau_d_calculated i - tau_J_d i) delta_tau_max_) (-delta_tau_max_)
        ∧ max (min (tau_d_calculated i - tau_J_d i) delta_tau_max_) (-delta_tau_max_)
          ≤ tau_d_calculated i - tau_J_d i)
      ∨ (tau_d_calculated i - tau_J_d i ≤ 0
        ∧ tau_d_calculated i - tau_J_d i
          ≤ max (min (tau_d_calculated i - tau_J_d i) delta_tau_max_) (-delta_tau_max_)
        ∧ max (min (tau_d_calculated i - tau_J_d i) delta_tau_max_) (-delta_tau_max_) ≤ 0) := by
    rcases le_total 0 (tau_d_calculated i - tau_J_d i) with h | h
    · left
      refine ⟨h, le_max_of_le_left (le_min h hmax), max_le (min_le_left _ _) (by linarith)⟩
    · right
      refine ⟨h, ?_, max_le ((min_le_left _ _).trans h) (by linarith)⟩
      rcases le_total (tau_d_calculated i - tau_J_d i) delta_tau_max_ with h1 | h1
      · rw [min_eq_left h1]; exact le_max_left _ _
      · have : tau_d_calculated i - tau_J_d i = 0 := by linarith
        rw [this, min_eq_left hmax]; exact le_max_left _ _
  refine ⟨?_, ?_⟩
  · rcases key with ⟨h0, h1, h2⟩ | ⟨h0, h1, h2⟩
    · exact ⟨(min_le_left _ _).trans (by linarith), le_max_of_le_right (by linarith)⟩
    · exact ⟨(min_le_right _ _).trans (by linarith), le_max_of_le_left (by linarith)⟩
  · intro hd
    rw [hd] at key ⊢
    rcases key with ⟨h0, h1, h2⟩ | ⟨h0, h1, h2⟩
    · have hp : tau_J_d i ≤ 0 := by linarith
      have hr : tau_J_d i + max (min (0 - tau_J_d i) delta_tau_max_) (-delta_tau_max_) ≤ 0 := by
        linarith
      refine ⟨?_, mul_nonneg_of_nonpos_of_nonpos hr hp⟩
      rw [abs_of_nonpos hr, abs_of_nonpos hp]
      linarith
    · have hp : 0 ≤ tau_J_d i := by linarith
      have hr : 0 ≤ tau_J_d i + max (min (0 - tau_J_d i) delta_tau_max_) (-delta_tau_max_) := by
        linarith
      refine ⟨?_, mul_nonneg hr hp⟩
      rw [abs_of_nonneg hr, abs_of_nonneg hp]
      linarith

/-- After `n` calls the distance to the desired torque has shrunk by `n` limits. -/
lemma saturateTorqueRate_iterate_dist {α : Type} [LinearOrderedField α]
    (d p : Vec7 α) (delta : α) (hd : 0 ≤ delta) (i : Fin 7) :
    ∀ n k : Nat, |d i - p i| ≤ ((n : α) + k) * delta →
      |d i - saturateTorqueRate_iterate d delta p n i| ≤ (k : α) * delta := by
  intro n
  induction n with
  | zero =>
    intro k h
    simpa [saturateTorqueRate_iterate] using h
  | succ m ih =>
    intro k h
    have h' : |d i - p i| ≤ ((m : α) + ((k + 1 : Nat) : α)) * delta := by
      push_cast at h ⊢
      linarith
    have hm := ih (k + 1) h'
    push_cast at hm
    have hk : 0 ≤ (k : α) * delta := mul_nonneg (Nat.cast_nonneg k) hd
    have hs := clamp_step (d i - saturateTorqueRate_iterate d delta p m i) delta
      ((k : α) * delta) hd hk (by linarith)
    simp only [saturateTorqueRate_iterate, saturateTorqueRate_state_apply]
    have e : d i - (saturateTorqueRate_iterate d delta p m i
          + max (min (d i - saturateTorqueRate_iterate d delta p m i) delta) (-delta))
        = d i - saturateTorqueRate_iterate d delta p m i
          - max (min (d i - saturateTorqueRate_iterate d delta p m i) delta) (-delta) := by
      ring
    rw [e]
    exact hs

/-- Exact arithmetic: for a positive limit, once `n * delta_tau_max_` covers the distance
between the desired torque and the initial command on a joint, the carried
state after `n` calls, and the value the `n`-th call returns, equal the desired
torque on that joint; a single call passes an in-range request through. -/
theorem saturateTorqueRate_reaches {α : Type} [LinearOrderedField α]
    (tau_desired tau_prev : Vec7 α) (delta_tau_max_ : α) (hmax : 0 < delta_tau_max_)
    (n : Nat) (i : Fin 7)
    (hn : |tau_desired i - tau_prev i| ≤ (n : α) * delta_tau_max_) :
    saturateTorqueRate_iterate tau_desired delta_tau_max_ tau_prev n i = tau_desired i
      ∧ (∀ k, n = k + 1 →
          (saturateTorqueRate tau_desired
            (saturateTorqueRate_iterate tau_desired delta_tau_max_ tau_prev k)
            delta_tau_max_).ret i = tau_desired i)
      ∧ (n = 1 → (saturateTorqueRate tau_desired tau_prev delta_tau_max_).ret i
          = tau_desired i) := by
  have h0 := saturateTorqueRate_iterate_dist tau_desired tau_prev delta_tau_max_ hmax.le i n 0
    (by simpa using hn)
  have hreach : saturateTorqueRate_iterate tau_desired delta_tau_max_ tau_prev n i
      = tau_desired i := by
    simp only [Nat.cast_zero, zero_mul] at h0
    have := abs_nonpos_iff.mp h0
    linarith
  refine ⟨hreach, ?_, ?_⟩
  · rintro k rfl
    exact hreach
  · rintro rfl
    exact hreach

/-- An integer within 1/2 of `q`, even at distance exactly 1/2, is
`roundHalfEven q`. -/
lemma roundHalfEven_eq {α : Type} [LinearOrderedField α] [FloorRing α] (q : α) (m : ℤ)
    (h : |q - m| < 1 / 2 ∨ (|q - m| = 1 / 2 ∧ m % 2 = 0)) : roundHalfEven q = m := by
  unfold roundHalfEven
  rcases le_or_lt (m : α) q with hq | hq
  · have hlt : q < m + 1 := by
      rcases h with h | ⟨h, -⟩
      · have := (abs_lt.mp h).2; linarith
      · have := (abs_le.mp h.le).2; linarith
    have hf : ⌊q⌋ = m := Int.floor_eq_iff.mpr ⟨hq, hlt⟩
    rw [hf]
    rcases h with h | ⟨h, hm⟩
    · have := (abs_lt.mp h).2
      rw [if_pos this]
    · have hqm : q - m = 1 / 2 := by rw [abs_of_nonneg (by linarith)] at h; exact h
      rw [hqm, if_neg (lt_irrefl _), if_neg (lt_irrefl _), if_pos hm]
  · have hge : ((m - 1 : ℤ) : α) ≤ q := by
      push_cast
      rcases h with h | ⟨h, -⟩
      · have := (abs_lt.mp h).1; linarith
      · have := (abs_le.mp h.le).1; linarith
    have hf : ⌊q⌋ = m - 1 := Int.floor_eq_iff.mpr ⟨hge, by push_cast; linarith⟩
    rw [hf]
    push_cast
    rcases h with h | ⟨h, hm⟩
    · have := (abs_lt.mp h).1
      rw [if_neg (by linarith), if_pos (by linarith)]
      ring
    · have hqm : q - m = -(1 / 2) := by
        rw [abs_of_neg (by linarith)] at h; linarith
      have e : q - (m - 1) = 1 / 2 := by linarith
      rw [e, if_neg (lt_irrefl _), if_neg (lt_irrefl _), if_neg (by omega)]
      ring

/-- The value of `roundHalfEven` is a nearest integer, the even one at a tie. -/
lemma roundHalfEven_spec {α : Type} [LinearOrderedField α] [FloorRing α] (q : α) :
    |q - roundHalfEven q| < 1 / 2
      ∨ (|q - roundHalfEven q| = 1 / 2 ∧ roundHalfEven q % 2 = 0) := by
  have h0 : (⌊q⌋ : α) ≤ q := Int.floor_le q
  have h1 : q < ⌊q⌋ + 1 := Int.lt_floor_add_one q
  unfold roundHalfEven
  split_ifs with a b c
  · left
    rw [abs_of_nonneg (by linarith)]
    exact a
  · left
    push_cast
    rw [abs_of_neg (by linarith)]
    linarith
  · right
    have e : q - ⌊q⌋ = 1 / 2 := le_antisymm (not_lt.mp b) (not_lt.mp a)
    exact ⟨by rw [e]; norm_num, c⟩
  · right
    have e : q - ⌊q⌋ = 1 / 2 := le_antisymm (not_lt.mp b) (not_lt.mp a)
    refine ⟨?_, by omega⟩
    push_cast
    have e' : q - (⌊q⌋ + 1) = -(1 / 2) := by linarith
    rw [e']
    norm_num

/-- An integer rounds to itself. -/
lemma roundHalfEven_intCast {α : Type} [LinearOrderedField α] [FloorRing α]
    (n : ℤ) : roundHalfEven (n : α) = n :=
  roundHalfEven_eq _ n (Or.inl (by simp))

/-- Rounding half to even is odd. -/
lemma roundHalfEven_neg {α : Type} [LinearOrderedField α] [FloorRing α]
    (q : α) : roundHalfEven (-q) = -roundHalfEven q := by
  apply roundHalfEven_eq
  have e : |(-q) - ((-roundHalfEven q : ℤ) : α)| = |q - roundHalfEven q| := by
    push_cast
    rw [← abs_neg]
    congr 1
    ring
  rw [e]
  rcases roundHalfEven_spec q with h | ⟨h, hm⟩
  · exact Or.inl h
  · exact Or.inr ⟨h, by omega⟩

/-- The rounded integer is the floor or the floor plus one. -/
lemma floor_le_roundHalfEven {α : Type} [LinearOrderedField α] [FloorRing α] (q : α) :
    ⌊q⌋ ≤ roundHalfEven q ∧ roundHalfEven q ≤ ⌊q⌋ + 1 := by
  unfold roundHalfEven
  split_ifs <;> constructor <;> omega

/-- Rounding half to even is monotone. -/
lemma roundHalfEven_mono {α : Type} [LinearOrderedField α] [FloorRing α]
    {q q' : α} (h : q ≤ q') : roundHalfEven q ≤ roundHalfEven q' := by
  have hf := Int.floor_mono h
  rcases hf.lt_or_eq with hlt | heq
  · have := (floor_le_roundHalfEven q).2
    have := (floor_le_roundHalfEven q').1
    omega
  · unfold roundHalfEven
    rw [← heq]
    split_ifs <;> first | omega | (exfalso; linarith)

/-- The spacing is positive. -/
lemma binadeSpacing_pos {α : Type} [LinearOrderedField α] [FloorRing α]
    (x : α) : 0 < binadeSpacing x :=
  zpow_pos (by norm_num) _

/-- The spacing depends on the magnitude only. -/
lemma binadeSpacing_neg {α : Type} [LinearOrderedField α] [FloorRing α]
    (x : α) : binadeSpacing (-x) = binadeSpacing x := by
  rw [binadeSpacing, binadeSpacing, abs_neg]

/-- Binary64 rounding is odd. -/
lemma roundDouble_neg {α : Type} [LinearOrderedField α] [FloorRing α]
    (x : α) : roundDouble (-x) = -roundDouble x := by
  rw [roundDouble, roundDouble, binadeSpacing_neg, neg_div, roundHalfEven_neg]
  push_cast
  ring

/-- Zero rounds to zero. -/
lemma roundDouble_zero {α : Type} [LinearOrderedField α] [FloorRing α]
    : roundDouble (0 : α) = 0 := by
  have := roundDouble_neg (0 : α)
  rw [neg_zero] at this
  linarith

/-- The spacing of a number whose binade is known. -/
lemma binadeSpacing_eq {α : Type} [LinearOrderedField α] [FloorRing α]
    (x : α) (e : ℤ) (h1 : (2 : α) ^ e ≤ |x|) (h2 : |x| < (2 : α) ^ (e + 1)) :
    binadeSpacing x = (2 : α) ^ (e - 52) := by
  have hpos : 0 < |x| := lt_of_lt_of_le (zpow_pos (by norm_num) e) h1
  have hlog : Int.log 2 |x| = e := by
    apply le_antisymm
    · have := (Int.lt_zpow_iff_log_lt (b := 2) (by norm_num) hpos (x := e + 1)).mp
        (by exact_mod_cast h2)
      omega
    · exact (Int.zpow_le_iff_le_log (b := 2) (by norm_num) hpos).mp (by exact_mod_cast h1)
  rw [binadeSpacing, hlog]

/-- Evaluation of binary64 rounding: binade `e` and nearest-even significand
`m`. -/
lemma roundDouble_eq {α : Type} [LinearOrderedField α] [FloorRing α]
    (x : α) (e m : ℤ) (h1 : (2 : α) ^ e ≤ |x|) (h2 : |x| < (2 : α) ^ (e + 1))
    (hm : |x / (2 : α) ^ (e - 52) - m| < 1 / 2
      ∨ (|x / (2 : α) ^ (e - 52) - m| = 1 / 2 ∧ m % 2 = 0)) :
    roundDouble x = (m : α) * (2 : α) ^ (e - 52) := by
  rw [roundDouble, binadeSpacing_eq x e h1 h2, roundHalfEven_eq _ m hm]

/-- Binade of a positive number. -/
lemma binade_of_pos {α : Type} [LinearOrderedField α] [FloorRing α] {x : α} (hx : 0 < x) :
    (2 : α) ^ Int.log 2 x ≤ x ∧ x < (2 : α) ^ (Int.log 2 x + 1) := by
  constructor
  · have := Int.zpow_log_le_self (b := 2) (by norm_num) hx
    exact_mod_cast this
  · have := Int.lt_zpow_succ_log_self (b := 2) (by norm_num) x
    exact_mod_cast this

/-- Splitting a power of two at the significand width. -/
lemma two_zpow_split {α : Type} [LinearOrderedField α]
    (e : ℤ) : (2 : α) ^ (52 : ℤ) * (2 : α) ^ (e - 52) = (2 : α) ^ e := by
  rw [← zpow_add₀ (by norm_num : (2 : α) ≠ 0)]
  congr 1
  ring

/-- Splitting the next power of two at the significand width. -/
lemma two_zpow_split' {α : Type} [LinearOrderedField α]
    (e : ℤ) : (2 : α) ^ (53 : ℤ) * (2 : α) ^ (e - 52) = (2 : α) ^ (e + 1) := by
  rw [← zpow_add₀ (by norm_num : (2 : α) ≠ 0)]
  congr 1
  ring

/-- The significand of the rounded value of a positive number lies in
`[2^52, 2^53]`. -/
lemma significand_bounds {α : Type} [LinearOrderedField α] [FloorRing α] {x : α} (hx : 0 < x) :
    (2 : ℤ) ^ 52 ≤ roundHalfEven (x / binadeSpacing x)
      ∧ roundHalfEven (x / binadeSpacing x) ≤ (2 : ℤ) ^ 53 := by
  obtain ⟨h1, h2⟩ := binade_of_pos hx
  have hu := binadeSpacing_pos x
  have hue : binadeSpacing x = (2 : α) ^ (Int.log 2 x - 52) := by
    rw [binadeSpacing, abs_of_pos hx]
  have ha : (((2 : ℤ) ^ 52 : ℤ) : α) ≤ x / binadeSpacing x := by
    rw [le_div_iff₀ hu, hue]
    push_cast
    have := two_zpow_split (α := α) (Int.log 2 x)
    norm_num at this ⊢
    linarith
  have hb : x / binadeSpacing x ≤ (((2 : ℤ) ^ 53 : ℤ) : α) := by
    rw [div_le_iff₀ hu, hue]
    push_cast
    have := two_zpow_split' (α := α) (Int.log 2 x)
    norm_num at this ⊢
    linarith
  constructor
  · have := roundHalfEven_mono ha
    rwa [roundHalfEven_intCast] at this
  · have := roundHalfEven_mono hb
    rwa [roundHalfEven_intCast] at this

/-- The rounded value of a positive number stays in the closure of its
binade. -/
lemma roundDouble_binade {α : Type} [LinearOrderedField α] [FloorRing α] {x : α} (hx : 0 < x) :
    (2 : α) ^ Int.log 2 x ≤ roundDouble x ∧ roundDouble x ≤ (2 : α) ^ (Int.log 2 x + 1) := by
  obtain ⟨h1, h2⟩ := significand_bounds hx
  have hu := binadeSpacing_pos x
  have hue : binadeSpacing x = (2 : α) ^ (Int.log 2 x - 52) := by
    rw [binadeSpacing, abs_of_pos hx]
  have c1 : ((2 : α) ^ (52 : ℤ)) ≤ (roundHalfEven (x / binadeSpacing x) : α) := by
    have : (((2 : ℤ) ^ 52 : ℤ) : α) ≤ (roundHalfEven (x / binadeSpacing x) : α) :=
      Int.cast_le.mpr h1
    push_cast at this
    norm_num at this ⊢
    exact this
  have c2 : (roundHalfEven (x / binadeSpacing x) : α) ≤ ((2 : α) ^ (53 : ℤ)) := by
    have : (roundHalfEven (x / binadeSpacing x) : α) ≤ (((2 : ℤ) ^ 53 : ℤ) : α) :=
      Int.cast_le.mpr h2
    push_cast at this
    norm_num at this ⊢
    exact this
  unfold roundDouble
  constructor
  · rw [← two_zpow_split (α := α) (Int.log 2 x), ← hue]
    exact mul_le_mul_of_nonneg_right c1 hu.le
  · rw [← two_zpow_split' (α := α) (Int.log 2 x), ← hue]
    exact mul_le_mul_of_nonneg_right c2 hu.le

/-- Non-negative numbers round to non-negative numbers. -/
lemma roundDouble_nonneg {α : Type} [LinearOrderedField α] [FloorRing α]
    {x : α} (hx : 0 ≤ x) : 0 ≤ roundDouble x := by
  unfold roundDouble
  apply mul_nonneg _ (binadeSpacing_pos x).le
  have h : (0 : α) ≤ x / binadeSpacing x := div_nonneg hx (binadeSpacing_pos x).le
  have := roundHalfEven_mono (show (((0 : ℤ) : ℤ) : α) ≤ x / binadeSpacing x by simpa using h)
  rw [roundHalfEven_intCast] at this
  exact_mod_cast this

/-- Binary64 rounding is monotone above a positive number. -/
lemma roundDouble_mono_of_pos {α : Type} [LinearOrderedField α] [FloorRing α]
    {x y : α} (hx : 0 < x) (hxy : x ≤ y) :
    roundDouble x ≤ roundDouble y := by
  have hy : 0 < y := lt_of_lt_of_le hx hxy
  have hlog := Int.log_mono_right (b := 2) hx hxy
  rcases hlog.lt_or_eq with hlt | heq
  · have h1 := (roundDouble_binade hx).2
    have h2 := (roundDouble_binade hy).1
    have h3 : (2 : α) ^ (Int.log 2 x + 1) ≤ (2 : α) ^ Int.log 2 y :=
      zpow_le_zpow_right₀ (by norm_num) (by omega)
    linarith
  · have hu : binadeSpacing x = binadeSpacing y := by
      rw [binadeSpacing, binadeSpacing, abs_of_pos hx, abs_of_pos hy, heq]
    unfold roundDouble
    rw [hu]
    apply mul_le_mul_of_nonneg_right _ (binadeSpacing_pos y).le
    exact Int.cast_le.mpr (roundHalfEven_mono
      (div_le_div_of_nonneg_right hxy (binadeSpacing_pos y).le))

/-- Binary64 rounding is monotone. -/
lemma roundDouble_mono {α : Type} [LinearOrderedField α] [FloorRing α]
    {x y : α} (hxy : x ≤ y) : roundDouble x ≤ roundDouble y := by
  rcases lt_or_le 0 x with hx | hx
  · exact roundDouble_mono_of_pos hx hxy
  · rcases le_or_lt 0 y with hy | hy
    · have h1 : roundDouble x ≤ 0 := by
        have := roundDouble_nonneg (show (0 : α) ≤ -x by linarith)
        rw [roundDouble_neg] at this
        linarith
      exact h1.trans (roundDouble_nonneg hy)
    · have := roundDouble_mono_of_pos (show (0 : α) < -y by linarith)
        (show -y ≤ -x by linarith)
      rw [roundDouble_neg, roundDouble_neg] at this
      linarith

/-- A rounded positive number rounds to itself. -/
lemma roundDouble_idem_of_pos {α : Type} [LinearOrderedField α] [FloorRing α] {x : α} (hx : 0 < x) :
    roundDouble (roundDouble x) = roundDouble x := by
  obtain ⟨h1, h2⟩ := significand_bounds hx
  obtain ⟨b1, b2⟩ := roundDouble_binade hx
  have hue : binadeSpacing x = (2 : α) ^ (Int.log 2 x - 52) := by
    rw [binadeSpacing, abs_of_pos hx]
  have hpos : 0 < roundDouble x := lt_of_lt_of_le (zpow_pos (by norm_num) _) b1
  rcases b2.lt_or_eq with hlt | heq
  · rw [roundDouble_eq (roundDouble x) (Int.log 2 x) (roundHalfEven (x / binadeSpacing x))
      (by rwa [abs_of_pos hpos]) (by rwa [abs_of_pos hpos])
      (Or.inl (by
        rw [← hue]
        have : roundDouble x / binadeSpacing x = (roundHalfEven (x / binadeSpacing x) : α) := by
          unfold roundDouble
          exact mul_div_cancel_right₀ _ (binadeSpacing_pos x).ne'
        rw [this, sub_self, abs_zero]
        norm_num))]
    unfold roundDouble
    rw [hue]
  · rw [heq, roundDouble_eq ((2 : α) ^ (Int.log 2 x + 1)) (Int.log 2 x + 1) ((2 : ℤ) ^ 52)
      (by rw [abs_of_pos (zpow_pos (by norm_num) _)])
      (by
        rw [abs_of_pos (zpow_pos (by norm_num) _)]
        exact zpow_lt_zpow_right₀ (by norm_num) (by omega))
      (Or.inl (by
        have : (2 : α) ^ (Int.log 2 x + 1) / (2 : α) ^ (Int.log 2 x + 1 - 52)
            = (((2 : ℤ) ^ 52 : ℤ) : α) := by
          rw [div_eq_iff (zpow_pos (by norm_num) _).ne']
          push_cast
          have := two_zpow_split (α := α) (Int.log 2 x + 1)
          norm_num at this ⊢
          linarith
        rw [this, sub_self, abs_zero]
        norm_num))]
    push_cast
    have := two_zpow_split (α := α) (Int.log 2 x + 1)
    norm_num at this ⊢
    linarith

/-- A rounded number rounds to itself. -/
lemma roundDouble_idem {α : Type} [LinearOrderedField α] [FloorRing α]
    (x : α) : roundDouble (roundDouble x) = roundDouble x := by
  rcases lt_trichotomy 0 x with hx | hx | hx
  · exact roundDouble_idem_of_pos hx
  · rw [← hx, roundDouble_zero, roundDouble_zero]
  · have := roundDouble_idem_of_pos (show (0 : α) < -x by linarith)
    rw [roundDouble_neg, roundDouble_neg] at this
    linarith

/-- Binary64 rounding is a rounding. -/
lemma isRounding_roundDouble {α : Type} [LinearOrderedField α] [FloorRing α]
    : IsRounding (roundDouble : α → α) :=
  ⟨fun _ _ h => roundDouble_mono h, roundDouble_neg, roundDouble_idem⟩

/-- Exact arithmetic is a rounding. -/
lemma isRounding_id {β : Type} [LinearOrderedField β] : IsRounding (id : β → β) :=
  ⟨fun _ _ h => h, fun _ => rfl, fun _ => rfl⟩

/-- A rounding maps zero to zero. -/
lemma IsRounding.map_zero {α : Type} [LinearOrderedField α] {fl : α → α}
    (h : IsRounding fl) : fl 0 = 0 := by
  have := h.2.1 0
  rw [neg_zero] at this
  linarith


/-! ### Torque rate limiter in rounded arithmetic -/

/-- The component that the rounded `saturateTorqueRate` returns. -/
lemma saturateTorqueRate_rounded_ret_apply {α : Type} [LinearOrderedField α] (fl : α → α)
    (d p : Vec7 α) (delta : α) (i : Fin 7) :
    (Fl.saturateTorqueRate fl d p delta).ret i
      = fl (p i + max (min (fl (d i - p i)) delta) (-delta)) := rfl

/-- The component of the carried state that the rounded `saturateTorqueRate`
leaves. -/
lemma saturateTorqueRate_rounded_state_apply {α : Type} [LinearOrderedField α] (fl : α → α)
    (d p : Vec7 α) (delta : α) (i : Fin 7) :
    (Fl.saturateTorqueRate fl d p delta).tau_J_d i
      = fl (p i + max (min (fl (d i - p i)) delta) (-delta)) := rfl

/-- With exact arithmetic the rounded limiter is the exact one. -/
lemma saturateTorqueRate_rounded_id {α : Type} [LinearOrderedField α]
    (d p : Vec7 α) (delta : α) :
    Fl.saturateTorqueRate id d p delta = saturateTorqueRate d p delta := rfl

/-- The clamped step has magnitude at most the limit. -/
lemma abs_clamp_le {α : Type} [LinearOrderedField α] (x delta : α) (hd : 0 ≤ delta) :
    |max (min x delta) (-delta)| ≤ delta := by
  rw [abs_le]
  exact ⟨le_max_right _ _, max_le (min_le_right _ _) (by linarith)⟩

/-- The clamped step lies between zero and the difference. -/
lemma clamp_between {α : Type} [LinearOrderedField α] (x delta : α) (hd : 0 ≤ delta) :
    (0 ≤ x → 0 ≤ max (min x delta) (-delta) ∧ max (min x delta) (-delta) ≤ x)
      ∧ (x ≤ 0 → x ≤ max (min x delta) (-delta) ∧ max (min x delta) (-delta) ≤ 0) := by
  constructor
  · intro h
    exact ⟨le_max_of_le_left (le_min h hd), max_le (min_le_left _ _) (by linarith)⟩
  · intro h
    refine ⟨?_, max_le ((min_le_left _ _).trans h) (by linarith)⟩
    rcases le_total x delta with h1 | h1
    · rw [min_eq_left h1]; exact le_max_left _ _
    · have : x = 0 := by linarith
      rw [this, min_eq_left hd]; exact le_max_left _ _

/-- C1 as stated fails in binary64: from the previous command `2^53` toward
`2^53 + 4` with limit `3/2` the clamped step is `3/2`, the sum `2^53 + 3/2`
rounds to `2^53 + 2`, and the returned joint is 2 away from the previous
command. All three inputs are binary64 numbers. -/
theorem saturateTorqueRate_slew_bound_counterexample :
    (0 : ℚ) ≤ 3 / 2
      ∧ roundDouble ((2 : ℚ) ^ 53) = 2 ^ 53 ∧ roundDouble ((2 : ℚ) ^ 53 + 4) = 2 ^ 53 + 4
      ∧ roundDouble (3 / 2 : ℚ) = 3 / 2
      ∧ (Fl.saturateTorqueRate roundDouble (fun _ => (2 : ℚ) ^ 53 + 4) (fun _ => 2 ^ 53)
          (3 / 2)).ret 0 = 2 ^ 53 + 2
      ∧ ¬ |(Fl.saturateTorqueRate roundDouble (fun _ => (2 : ℚ) ^ 53 + 4) (fun _ => 2 ^ 53)
          (3 / 2)).ret 0 - (fun _ => (2 : ℚ) ^ 53) (0 : Fin 7)| ≤ 3 / 2 := by
  have r1 : roundDouble ((2 : ℚ) ^ 53) = 2 ^ 53 := by
    rw [roundDouble_eq _ 53 (2 ^ 52) (by norm_num [abs_of_pos]) (by norm_num [abs_of_pos])
      (Or.inl (by norm_num [abs_of_pos]))]
    norm_num
  have r2 : roundDouble ((2 : ℚ) ^ 53 + 4) = 2 ^ 53 + 4 := by
    rw [roundDouble_eq _ 53 (2 ^ 52 + 2) (by norm_num [abs_of_pos]) (by norm_num [abs_of_pos])
      (Or.inl (by norm_num [abs_of_pos]))]
    norm_num
  have r3 : roundDouble (3 / 2 : ℚ) = 3 / 2 := by
    rw [roundDouble_eq _ 0 (3 * 2 ^ 51) (by norm_num [abs_of_pos]) (by norm_num [abs_of_pos])
      (Or.inl (by norm_num [abs_of_pos]))]
    norm_num
  have r4 : roundDouble (4 : ℚ) = 4 := by
    rw [roundDouble_eq _ 2 (2 ^ 52) (by norm_num [abs_of_pos]) (by norm_num [abs_of_pos])
      (Or.inl (by norm_num [abs_of_pos]))]
    norm_num
  have r5 : roundDouble ((2 : ℚ) ^ 53 + 3 / 2) = 2 ^ 53 + 2 := by
    rw [roundDouble_eq _ 53 (2 ^ 52 + 1) (by norm_num [abs_of_pos]) (by norm_num [abs_of_pos])
      (Or.inl (by norm_num [abs_of_pos]))]
    norm_num
  have e : (Fl.saturateTorqueRate roundDouble (fun _ => (2 : ℚ) ^ 53 + 4) (fun _ => 2 ^ 53)
      (3 / 2)).ret 0 = 2 ^ 53 + 2 := by
    rw [saturateTorqueRate_rounded_ret_apply]
    have h4 : ((2 : ℚ) ^ 53 + 4 - 2 ^ 53) = 4 := by ring
    rw [h4, r4, min_eq_right (by norm_num), max_eq_left (by norm_num), r5]
  refine ⟨by norm_num, r1, r2, r3, e, ?_⟩
  rw [e]
  norm_num [abs_of_pos]

/-- C1 amended: for a rounding `fl` and a non-negative limit, every joint of
the returned vector is the rounded sum of the previous command and a step of
magnitude at most the limit; it lies between the rounded values of the previous
command minus and plus the limit, and is within the limit of the previous
command whenever that sum is exact. -/
theorem saturateTorqueRate_rounded_slew_bound {α : Type} [LinearOrderedField α]
    (fl : α → α) (hfl : IsRounding fl)
    (tau_d_calculated tau_J_d : Vec7 α) (delta_tau_max_ : α)
    (hmax : 0 ≤ delta_tau_max_) (i : Fin 7) :
    |max (min (fl (tau_d_calculated i - tau_J_d i)) delta_tau_max_) (-delta_tau_max_)|
        ≤ delta_tau_max_
      ∧ (Fl.saturateTorqueRate fl tau_d_calculated tau_J_d delta_tau_max_).ret i
        = fl (tau_J_d i
          + max (min (fl (tau_d_calculated i - tau_J_d i)) delta_tau_max_) (-delta_tau_max_))
      ∧ fl (tau_J_d i - delta_tau_max_)
        ≤ (Fl.saturateTorqueRate fl tau_d_calculated tau_J_d delta_tau_max_).ret i
      ∧ (Fl.saturateTorqueRate fl tau_d_calculated tau_J_d delta_tau_max_).ret i
        ≤ fl (tau_J_d i + delta_tau_max_)
      ∧ (fl (tau_J_d i
            + max (min (fl (tau_d_calculated i - tau_J_d i)) delta_tau_max_) (-delta_tau_max_))
          = tau_J_d i
            + max (min (fl (tau_d_calculated i - tau_J_d i)) delta_tau_max_) (-delta_tau_max_) →
        |(Fl.saturateTorqueRate fl tau_d_calculated tau_J_d delta_tau_max_).ret i - tau_J_d i|
          ≤ delta_tau_max_) := by
  have hs := abs_clamp_le (fl (tau_d_calculated i - tau_J_d i)) delta_tau_max_ hmax
  obtain ⟨h1, h2⟩ := abs_le.mp hs
  refine ⟨hs, rfl, ?_, ?_, ?_⟩
  · rw [saturateTorqueRate_rounded_ret_apply]
    exact hfl.1 _ _ (by linarith)
  · rw [saturateTorqueRate_rounded_ret_apply]
    exact hfl.1 _ _ (by linarith)
  · intro hex
    rw [saturateTorqueRate_rounded_ret_apply, hex, add_sub_cancel_left]
    exact hs

/-- Witness of the amended C1 in binary64: from 0 toward 5 with limit 1. -/
theorem saturateTorqueRate_rounded_slew_bound_witness :
    (0 : ℚ) ≤ 1
      ∧ roundDouble ((fun _ => (0 : ℚ)) (0 : Fin 7) - 1)
        ≤ (Fl.saturateTorqueRate roundDouble (fun _ => (5 : ℚ)) (fun _ => 0) 1).ret 0
      ∧ (Fl.saturateTorqueRate roundDouble (fun _ => (5 : ℚ)) (fun _ => 0) 1).ret 0
        ≤ roundDouble ((fun _ => (0 : ℚ)) (0 : Fin 7) + 1) :=
  ⟨by norm_num,
    (saturateTorqueRate_rounded_slew_bound roundDouble isRounding_roundDouble
      (fun _ => (5 : ℚ)) (fun _ => 0) 1 (by norm_num) 0).2.2.1,
    (saturateTorqueRate_rounded_slew_bound roundDouble isRounding_roundDouble
      (fun _ => (5 : ℚ)) (fun _ => 0) 1 (by norm_num) 0).2.2.2.1⟩

/-- Binary64 values used by the rate limiter examples. -/
lemma roundDouble_examples :
    roundDouble (1 : ℚ) = 1 ∧ roundDouble ((2 : ℚ) ^ (-60 : ℤ)) = 2 ^ (-60 : ℤ)
      ∧ roundDouble (1000 : ℚ) = 1000
      ∧ roundDouble ((2 : ℚ) ^ (-60 : ℤ) - 1) = -1
      ∧ roundDouble (2 : ℚ) = 2
      ∧ roundDouble ((2 : ℚ) ^ 53 + 2) = 2 ^ 53 + 2
      ∧ roundDouble ((2 : ℚ) ^ 53 + 1) = 2 ^ 53 := by
  refine ⟨?_, ?_, ?_, ?_, ?_, ?_, ?_⟩
  · rw [roundDouble_eq _ 0 (2 ^ 52) (by norm_num [abs_of_pos]) (by norm_num [abs_of_pos])
      (Or.inl (by norm_num [abs_of_pos]))]
    norm_num
  · rw [roundDouble_eq _ (-60) (2 ^ 52) (by norm_num [abs_of_pos]) (by norm_num [abs_of_pos])
      (Or.inl (by norm_num [abs_of_pos]))]
    norm_num
  · rw [roundDouble_eq _ 9 (125 * 2 ^ 46) (by norm_num [abs_of_pos]) (by norm_num [abs_of_pos])
      (Or.inl (by norm_num [abs_of_pos]))]
    norm_num
  · rw [roundDouble_eq _ (-1) (-2 ^ 53) (by norm_num [abs_of_neg])
      (by norm_num [abs_of_neg]) (Or.inl (by norm_num [abs_of_pos]))]
    norm_num
  · rw [roundDouble_eq _ 1 (2 ^ 52) (by norm_num [abs_of_pos]) (by norm_num [abs_of_pos])
      (Or.inl (by norm_num [abs_of_pos]))]
    norm_num
  · rw [roundDouble_eq _ 53 (2 ^ 52 + 1) (by norm_num [abs_of_pos]) (by norm_num [abs_of_pos])
      (Or.inl (by norm_num [abs_of_pos]))]
    norm_num
  · rw [roundDouble_eq _ 53 (2 ^ 52) (by norm_num [abs_of_pos]) (by norm_num [abs_of_pos])
      (Or.inr ⟨by norm_num [abs_of_pos], by norm_num⟩)]
    norm_num

/-- C12 amended: for a rounding `fl` and a non-negative limit, on every joint
on which the first call returned the desired torque the second call with the
same desired torque returns the same value; the second call returns the same
vector as the first when the first call returned the desired torque on all
joints, and when the limit is zero. -/
theorem saturateTorqueRate_rounded_twice {α : Type} [LinearOrderedField α]
    (fl : α → α) (hfl : IsRounding fl)
    (tau_desired tau_prev : Vec7 α) (delta_tau_max_ : α) (hmax : 0 ≤ delta_tau_max_) :
    (∀ i, (Fl.saturateTorqueRate fl tau_desired tau_prev delta_tau_max_).ret i
        = tau_desired i →
      (Fl.saturateTorqueRate fl tau_desired
          (Fl.saturateTorqueRate fl tau_desired tau_prev delta_tau_max_).tau_J_d
          delta_tau_max_).ret i
        = (Fl.saturateTorqueRate fl tau_desired tau_prev delta_tau_max_).ret i)
      ∧ ((Fl.saturateTorqueRate fl tau_desired tau_prev delta_tau_max_).ret = tau_desired →
        (Fl.saturateTorqueRate fl tau_desired
            (Fl.saturateTorqueRate fl tau_desired tau_prev delta_tau_max_).tau_J_d
            delta_tau_max_).ret
          = (Fl.saturateTorqueRate fl tau_desired tau_prev delta_tau_max_).ret)
      ∧ (delta_tau_max_ = 0 →
        (Fl.saturateTorqueRate fl tau_desired
            (Fl.saturateTorqueRate fl tau_desired tau_prev delta_tau_max_).tau_J_d
            delta_tau_max_).ret
          = (Fl.saturateTorqueRate fl tau_desired tau_prev delta_tau_max_).ret) := by
  have key : ∀ i, (Fl.saturateTorqueRate fl tau_desired tau_prev delta_tau_max_).ret i
        = tau_desired i →
      (Fl.saturateTorqueRate fl tau_desired
          (Fl.saturateTorqueRate fl tau_desired tau_prev delta_tau_max_).tau_J_d
          delta_tau_max_).ret i
        = (Fl.saturateTorqueRate fl tau_desired tau_prev delta_tau_max_).ret i := by
    intro i h
    have hst : (Fl.saturateTorqueRate fl tau_desired tau_prev delta_tau_max_).tau_J_d i
        = (Fl.saturateTorqueRate fl tau_desired tau_prev delta_tau_max_).ret i := rfl
    rw [saturateTorqueRate_rounded_ret_apply fl tau_desired
      (Fl.saturateTorqueRate fl tau_desired tau_prev delta_tau_max_).tau_J_d, hst, h,
      sub_self, hfl.map_zero, min_eq_left hmax, max_eq_left (by linarith), add_zero]
    rw [← h, saturateTorqueRate_rounded_ret_apply]
    exact hfl.2.2 _
  refine ⟨key, fun h => funext fun i => key i (congrFun h i), ?_⟩
  intro h0
  subst h0
  funext i
  have hst : (Fl.saturateTorqueRate fl tau_desired tau_prev 0).tau_J_d i
      = (Fl.saturateTorqueRate fl tau_desired tau_prev 0).ret i := rfl
  rw [saturateTorqueRate_rounded_ret_apply fl tau_desired
    (Fl.saturateTorqueRate fl tau_desired tau_prev 0).tau_J_d, hst, neg_zero,
    max_eq_right (min_le_right _ _), add_zero, saturateTorqueRate_rounded_ret_apply]
  exact hfl.2.2 _

/-- Witness of the amended C12 in binary64: from 2 toward 1 with limit 1000 the
first call returns the desired torque, and the second call repeats it. -/
theorem saturateTorqueRate_rounded_twice_witness :
    (0 : ℚ) ≤ 1000
      ∧ (Fl.saturateTorqueRate roundDouble (fun _ => (1 : ℚ)) (fun _ => 2) 1000).ret 0
        = (fun _ => (1 : ℚ)) (0 : Fin 7)
      ∧ (Fl.saturateTorqueRate roundDouble (fun _ => (1 : ℚ))
            (Fl.saturateTorqueRate roundDouble (fun _ => (1 : ℚ)) (fun _ => 2) 1000).tau_J_d
            1000).ret 0
          = (Fl.saturateTorqueRate roundDouble (fun _ => (1 : ℚ)) (fun _ => 2) 1000).ret 0 :=
  have h1 : (Fl.saturateTorqueRate roundDouble (fun _ => (1 : ℚ)) (fun _ => 2) 1000).ret 0
      = (fun _ => (1 : ℚ)) (0 : Fin 7) := by
    rw [saturateTorqueRate_rounded_ret_apply]
    show roundDouble ((2 : ℚ) + max (min (roundDouble (1 - 2)) 1000) (-1000)) = 1
    have e : (1 : ℚ) - 2 = -1 := by norm_num
    rw [e, roundDouble_neg, roundDouble_examples.1, min_eq_left (by norm_num),
      max_eq_left (by norm_num)]
    have e2 : (2 : ℚ) + -1 = 1 := by norm_num
    rw [e2, roundDouble_examples.1]
  ⟨by norm_num, h1,
    (saturateTorqueRate_rounded_twice roundDouble isRounding_roundDouble (fun _ => (1 : ℚ))
      (fun _ => 2) 1000 (by norm_num)).1 0 h1⟩

/-- C17 as stated fails in binary64: from the previous command 1 toward
`2^-60` with limit 1000 the difference `2^-60 - 1` rounds to `-1`, the sum is
0, and the returned joint 0 lies below both the desired torque and the
previous command. -/
theorem saturateTorqueRate_between_counterexample :
    (0 : ℚ) ≤ 1000
      ∧ roundDouble (1 : ℚ) = 1 ∧ roundDouble ((2 : ℚ) ^ (-60 : ℤ)) = 2 ^ (-60 : ℤ)
      ∧ roundDouble (1000 : ℚ) = 1000
      ∧ (Fl.saturateTorqueRate roundDouble (fun _ => (2 : ℚ) ^ (-60 : ℤ)) (fun _ => 1)
          1000).ret 0 = 0
      ∧ ¬ (min ((fun _ => (1 : ℚ)) (0 : Fin 7)) ((fun _ => (2 : ℚ) ^ (-60 : ℤ)) (0 : Fin 7))
          ≤ (Fl.saturateTorqueRate roundDouble (fun _ => (2 : ℚ) ^ (-60 : ℤ)) (fun _ => 1)
            1000).ret 0) := by
  obtain ⟨r1, r2, r3, r4, -, -, -⟩ := roundDouble_examples
  have e : (Fl.saturateTorqueRate roundDouble (fun _ => (2 : ℚ) ^ (-60 : ℤ)) (fun _ => 1)
      1000).ret 0 = 0 := by
    rw [saturateTorqueRate_rounded_ret_apply, r4, min_eq_left (by norm_num),
      max_eq_left (by norm_num)]
    norm_num [roundDouble_zero]
  refine ⟨by norm_num, r1, r2, r3, e, ?_⟩
  rw [e]
  norm_num

/-- C17 amended: for a rounding `fl`, a non-negative limit and a previous
command that is a value of `fl`, every returned component lies between the
previous command and the rounded sum `fl (previous + fl (desired - previous))`
(which is the desired torque when both operations are exact); when the
desired torque is zero the returned component is no larger in absolute value
than the previous command and has no sign opposite to it. -/
theorem saturateTorqueRate_rounded_between {α : Type} [LinearOrderedField α]
    (fl : α → α) (hfl : IsRounding fl)
    (tau_d_calculated tau_J_d : Vec7 α) (delta_tau_max_ : α)
    (hmax : 0 ≤ delta_tau_max_) (i : Fin 7) (hprev : fl (tau_J_d i) = tau_J_d i) :
    (min (tau_J_d i) (fl (tau_J_d i + fl (tau_d_calculated i - tau_J_d i)))
        ≤ (Fl.saturateTorqueRate fl tau_d_calculated tau_J_d delta_tau_max_).ret i
      ∧ (Fl.saturateTorqueRate fl tau_d_calculated tau_J_d delta_tau_max_).ret i
        ≤ max (tau_J_d i) (fl (tau_J_d i + fl (tau_d_calculated i - tau_J_d i))))
    ∧ (fl (tau_J_d i + fl (tau_d_calculated i - tau_J_d i)) = tau_d_calculated i →
        min (tau_J_d i) (tau_d_calculated i)
          ≤ (Fl.saturateTorqueRate fl tau_d_calculated tau_J_d delta_tau_max_).ret i
        ∧ (Fl.saturateTorqueRate fl tau_d_calculated tau_J_d delta_tau_max_).ret i
          ≤ max (tau_J_d i) (tau_d_calculated i))
    ∧ (tau_d_calculated i = 0 →
        |(Fl.saturateTorqueRate fl tau_d_calculated tau_J_d delta_tau_max_).ret i|
          ≤ |tau_J_d i|
        ∧ 0 ≤ (Fl.saturateTorqueRate fl tau_d_calculated tau_J_d delta_tau_max_).ret i
          * tau_J_d i) := by
  obtain ⟨hpos, hneg⟩ := clamp_between (fl (tau_d_calculated i - tau_J_d i)) delta_tau_max_ hmax
  have main : min (tau_J_d i) (fl (tau_J_d i + fl (tau_d_calculated i - tau_J_d i)))
        ≤ (Fl.saturateTorqueRate fl tau_d_calculated tau_J_d delta_tau_max_).ret i
      ∧ (Fl.saturateTorqueRate fl tau_d_calculated tau_J_d delta_tau_max_).ret i
        ≤ max (tau_J_d i) (fl (tau_J_d i + fl (tau_d_calculated i - tau_J_d i))) := by
    rw [saturateTorqueRate_rounded_ret_apply]
    rcases le_total 0 (fl (tau_d_calculated i - tau_J_d i)) with h | h
    · obtain ⟨h1, h2⟩ := hpos h
      constructor
      · refine (min_le_left _ _).trans ?_
        have := hfl.1 (tau_J_d i) _ (show tau_J_d i ≤ tau_J_d i
          + max (min (fl (tau_d_calculated i - tau_J_d i)) delta_tau_max_)
            (-delta_tau_max_) by linarith)
        rwa [hprev] at this
      · exact le_max_of_le_right (hfl.1 _ _ (by linarith))
    · obtain ⟨h1, h2⟩ := hneg h
      constructor
      · exact (min_le_right _ _).trans (hfl.1 _ _ (by linarith))
      · refine le_max_of_le_left ?_
        have := hfl.1 _ (tau_J_d i) (show tau_J_d i
          + max (min (fl (tau_d_calculated i - tau_J_d i)) delta_tau_max_)
            (-delta_tau_max_) ≤ tau_J_d i by linarith)
        rwa [hprev] at this
  refine ⟨main, ?_, ?_⟩
  · intro hex
    rw [hex] at main
    exact main
  · intro hd
    have hsum : fl (tau_J_d i + fl (tau_d_calculated i - tau_J_d i)) = 0 := by
      rw [hd, zero_sub, hfl.2.1, hprev, add_neg_cancel, hfl.map_zero]
    rw [hsum] at main
    obtain ⟨m1, m2⟩ := main
    rcases le_total 0 (tau_J_d i) with hp | hp
    · rw [min_eq_right hp] at m1
      rw [max_eq_left hp] at m2
      refine ⟨?_, mul_nonneg m1 hp⟩
      rw [abs_of_nonneg m1, abs_of_nonneg hp]
      exact m2
    · rw [min_eq_left hp] at m1
      rw [max_eq_right hp] at m2
      refine ⟨?_, mul_nonneg_of_nonpos_of_nonpos m2 hp⟩
      rw [abs_of_nonpos m2, abs_of_nonpos hp]
      linarith

/-- Witness of the amended C17 in binary64: from 1 toward 0 with limit 1000. -/
theorem saturateTorqueRate_rounded_between_witness :
    (0 : ℚ) ≤ 1000 ∧ roundDouble ((fun _ => (1 : ℚ)) (0 : Fin 7)) = (fun _ => (1 : ℚ)) 0
      ∧ (min ((fun _ => (1 : ℚ)) (0 : Fin 7))
          (roundDouble ((fun _ => (1 : ℚ)) (0 : Fin 7)
            + roundDouble ((fun _ => (0 : ℚ)) (0 : Fin 7) - (fun _ => (1 : ℚ)) (0 : Fin 7))))
        ≤ (Fl.saturateTorqueRate roundDouble (fun _ => (0 : ℚ)) (fun _ => 1) 1000).ret 0) :=
  ⟨by norm_num, roundDouble_examples.1,
    (saturateTorqueRate_rounded_between roundDouble isRounding_roundDouble (fun _ => (0 : ℚ))
      (fun _ => 1) 1000 (by norm_num) 0 roundDouble_examples.1).1.1⟩

/-- The carried state before any call. -/
lemma saturateTorqueRate_rounded_iterate_zero {α : Type} [LinearOrderedField α] (fl : α → α)
    (d : Vec7 α) (delta : α) (p : Vec7 α) (i : Fin 7) :
    Fl.saturateTorqueRate_iterate fl d delta p 0 i = p i := rfl

/-- The carried state after one more call. -/
lemma saturateTorqueRate_rounded_iterate_succ {α : Type} [LinearOrderedField α] (fl : α → α)
    (d : Vec7 α) (delta : α) (p : Vec7 α) (n : Nat) (i : Fin 7) :
    Fl.saturateTorqueRate_iterate fl d delta p (n + 1) i
      = fl (Fl.saturateTorqueRate_iterate fl d delta p n i
        + max (min (fl (d i - Fl.saturateTorqueRate_iterate fl d delta p n i)) delta)
          (-delta)) := rfl

/-- C19 as stated fails in binary64: from the previous command `2^53` toward
`2^53 + 2` with limit 1, two calls cover the distance, but every call computes
`2^53 + 1`, which rounds back to `2^53`: the carried state never moves. -/
theorem saturateTorqueRate_reaches_counterexample :
    (0 : ℚ) < 1
      ∧ |(fun _ => (2 : ℚ) ^ 53 + 2) (0 : Fin 7) - (fun _ => (2 : ℚ) ^ 53) (0 : Fin 7)|
        ≤ ((2 : Nat) : ℚ) * 1
      ∧ roundDouble ((2 : ℚ) ^ 53 + 2) = 2 ^ 53 + 2
      ∧ Fl.saturateTorqueRate_iterate roundDouble (fun _ => (2 : ℚ) ^ 53 + 2) 1
          (fun _ => 2 ^ 53) 2 0 = 2 ^ 53
      ∧ Fl.saturateTorqueRate_iterate roundDouble (fun _ => (2 : ℚ) ^ 53 + 2) 1
          (fun _ => 2 ^ 53) 2 0 ≠ (fun _ => (2 : ℚ) ^ 53 + 2) (0 : Fin 7) := by
  obtain ⟨-, -, -, -, r5, r6, r7⟩ := roundDouble_examples
  have step : roundDouble ((2 : ℚ) ^ 53
      + max (min (roundDouble ((2 : ℚ) ^ 53 + 2 - 2 ^ 53)) 1) (-1)) = 2 ^ 53 := by
    have h2 : ((2 : ℚ) ^ 53 + 2 - 2 ^ 53) = 2 := by ring
    rw [h2, r5, min_eq_right (by norm_num), max_eq_left (by norm_num), r7]
  have e1 : Fl.saturateTorqueRate_iterate roundDouble (fun _ => (2 : ℚ) ^ 53 + 2) 1
      (fun _ => 2 ^ 53) 1 0 = 2 ^ 53 := by
    rw [saturateTorqueRate_rounded_iterate_succ, saturateTorqueRate_rounded_iterate_zero]
    exact step
  have e2 : Fl.saturateTorqueRate_iterate roundDouble (fun _ => (2 : ℚ) ^ 53 + 2) 1
      (fun _ => 2 ^ 53) 2 0 = 2 ^ 53 := by
    rw [saturateTorqueRate_rounded_iterate_succ, e1]
    exact step
  refine ⟨by norm_num, by norm_num [abs_of_pos], r6, e2, ?_⟩
  rw [e2]
  norm_num

/-- The exact carried state after one more call. -/
lemma saturateTorqueRate_iterate_succ {α : Type} [LinearOrderedField α]
    (d : Vec7 α) (delta : α) (p : Vec7 α) (n : Nat) (i : Fin 7) :
    saturateTorqueRate_iterate d delta p (n + 1) i
      = saturateTorqueRate_iterate d delta p n i
        + max (min (d i - saturateTorqueRate_iterate d delta p n i) delta) (-delta) := rfl

/-- While the subtraction and the addition of a joint are exact, the rounded
carried state of that joint is the exact one. -/
lemma saturateTorqueRate_iterate_of_exact {α : Type} [LinearOrderedField α] (fl : α → α)
    (d : Vec7 α) (delta : α) (p : Vec7 α) (i : Fin 7) (n : Nat)
    (hexact : ∀ k, k < n →
      fl (d i - Fl.saturateTorqueRate_iterate fl d delta p k i)
          = d i - Fl.saturateTorqueRate_iterate fl d delta p k i
        ∧ fl (Fl.saturateTorqueRate_iterate fl d delta p k i
            + max (min (d i - Fl.saturateTorqueRate_iterate fl d delta p k i) delta) (-delta))
          = Fl.saturateTorqueRate_iterate fl d delta p k i
            + max (min (d i - Fl.saturateTorqueRate_iterate fl d delta p k i) delta)
              (-delta)) :
    ∀ k, k ≤ n → Fl.saturateTorqueRate_iterate fl d delta p k i
      = saturateTorqueRate_iterate d delta p k i := by
  intro k
  induction k with
  | zero => intro _; rfl
  | succ m ih =>
    intro hm
    have h := hexact m (by omega)
    rw [saturateTorqueRate_rounded_iterate_succ, h.1, h.2, saturateTorqueRate_iterate_succ,
      ih (by omega)]

/-- C19 amended: for a positive limit, if `n * delta_tau_max_` covers the
distance between the desired torque and the initial command on a joint and the
subtraction and the addition of that joint incur no rounding error in the
first `n` calls, the carried state after `n` calls, and the value the `n`-th
call returns, equal the desired torque on that joint. -/
theorem saturateTorqueRate_rounded_reaches {α : Type} [LinearOrderedField α]
    (fl : α → α) (tau_desired tau_prev : Vec7 α) (delta_tau_max_ : α)
    (hmax : 0 < delta_tau_max_) (n : Nat) (i : Fin 7)
    (hn : |tau_desired i - tau_prev i| ≤ (n : α) * delta_tau_max_)
    (hexact : ∀ k, k < n →
      fl (tau_desired i
            - Fl.saturateTorqueRate_iterate fl tau_desired delta_tau_max_ tau_prev k i)
          = tau_desired i
            - Fl.saturateTorqueRate_iterate fl tau_desired delta_tau_max_ tau_prev k i
        ∧ fl (Fl.saturateTorqueRate_iterate fl tau_desired delta_tau_max_ tau_prev k i
            + max (min (tau_desired i
                - Fl.saturateTorqueRate_iterate fl tau_desired delta_tau_max_ tau_prev k i)
              delta_tau_max_) (-delta_tau_max_))
          = Fl.saturateTorqueRate_iterate fl tau_desired delta_tau_max_ tau_prev k i
            + max (min (tau_desired i
                - Fl.saturateTorqueRate_iterate fl tau_desired delta_tau_max_ tau_prev k i)
              delta_tau_max_) (-delta_tau_max_)) :
    Fl.saturateTorqueRate_iterate fl tau_desired delta_tau_max_ tau_prev n i = tau_desired i
      ∧ (∀ k, n = k + 1 →
          (Fl.saturateTorqueRate fl tau_desired
            (Fl.saturateTorqueRate_iterate fl tau_desired delta_tau_max_ tau_prev k)
            delta_tau_max_).ret i = tau_desired i) := by
  have h := saturateTorqueRate_iterate_of_exact fl tau_desired delta_tau_max_ tau_prev i n
    hexact n le_rfl
  have hreach : Fl.saturateTorqueRate_iterate fl tau_desired delta_tau_max_ tau_prev n i
      = tau_desired i := by
    rw [h]
    exact (saturateTorqueRate_reaches tau_desired tau_prev delta_tau_max_ hmax n i hn).1
  refine ⟨hreach, ?_⟩
  rintro k rfl
  exact hreach

/-- Binary64 run of the limiter from 0 toward 3/2 with limit 1: the first call
leaves 1, and the subtractions and additions of the first two calls are
exact. -/
lemma saturateTorqueRate_rounded_two_steps :
    ∀ k, k < 2 →
      roundDouble ((fun _ => (3 / 2 : ℚ)) (0 : Fin 7)
            - Fl.saturateTorqueRate_iterate roundDouble (fun _ => (3 / 2 : ℚ)) 1
              (fun _ => 0) k 0)
          = (fun _ => (3 / 2 : ℚ)) (0 : Fin 7)
            - Fl.saturateTorqueRate_iterate roundDouble (fun _ => (3 / 2 : ℚ)) 1
              (fun _ => 0) k 0
        ∧ roundDouble (Fl.saturateTorqueRate_iterate roundDouble (fun _ => (3 / 2 : ℚ)) 1
              (fun _ => 0) k 0
            + max (min ((fun _ => (3 / 2 : ℚ)) (0 : Fin 7)
                - Fl.saturateTorqueRate_iterate roundDouble (fun _ => (3 / 2 : ℚ)) 1
                  (fun _ => 0) k 0) 1) (-1))
          = Fl.saturateTorqueRate_iterate roundDouble (fun _ => (3 / 2 : ℚ)) 1
              (fun _ => 0) k 0
            + max (min ((fun _ => (3 / 2 : ℚ)) (0 : Fin 7)
                - Fl.saturateTorqueRate_iterate roundDouble (fun _ => (3 / 2 : ℚ)) 1
                  (fun _ => 0) k 0) 1) (-1) := by
  have r1 : roundDouble (1 : ℚ) = 1 := roundDouble_examples.1
  have r12 : roundDouble (1 / 2 : ℚ) = 1 / 2 := by
    rw [roundDouble_eq _ (-1) (2 ^ 52) (by norm_num [abs_of_pos])
      (by norm_num [abs_of_pos]) (Or.inl (by norm_num [abs_of_pos]))]
    norm_num
  have r32 : roundDouble (3 / 2 : ℚ) = 3 / 2 := by
    rw [roundDouble_eq _ 0 (3 * 2 ^ 51) (by norm_num [abs_of_pos])
      (by norm_num [abs_of_pos]) (Or.inl (by norm_num [abs_of_pos]))]
    norm_num
  have s1 : Fl.saturateTorqueRate_iterate roundDouble (fun _ => (3 / 2 : ℚ)) 1
      (fun _ => 0) 1 0 = 1 := by
    rw [saturateTorqueRate_rounded_iterate_succ, saturateTorqueRate_rounded_iterate_zero]
    show roundDouble ((0 : ℚ) + max (min (roundDouble (3 / 2 - 0)) 1) (-1)) = 1
    rw [sub_zero, r32, min_eq_right (by norm_num), max_eq_left (by norm_num), zero_add, r1]
  intro k hk
  interval_cases k
  · rw [saturateTorqueRate_rounded_iterate_zero]
    show roundDouble ((3 / 2 : ℚ) - 0) = 3 / 2 - 0
      ∧ roundDouble ((0 : ℚ) + max (min (3 / 2 - 0) 1) (-1))
        = 0 + max (min (3 / 2 - 0) 1) (-1)
    rw [sub_zero, min_eq_right (by norm_num), max_eq_left (by norm_num), zero_add]
    exact ⟨r32, r1⟩
  · rw [s1]
    show roundDouble ((3 / 2 : ℚ) - 1) = 3 / 2 - 1
      ∧ roundDouble ((1 : ℚ) + max (min (3 / 2 - 1) 1) (-1))
        = 1 + max (min (3 / 2 - 1) 1) (-1)
    have e : (3 / 2 : ℚ) - 1 = 1 / 2 := by norm_num
    rw [e, min_eq_left (by norm_num), max_eq_left (by norm_num)]
    have e2 : (1 : ℚ) + 1 / 2 = 3 / 2 := by norm_num
    rw [e2]
    exact ⟨r12, r32⟩

/-- Witness of the amended C19 in binary64: from 0 to 3/2 with limit 1 in two
calls, whose subtractions and additions are exact. -/
theorem saturateTorqueRate_rounded_reaches_witness :
    (0 : ℚ) < 1
      ∧ |(fun _ => (3 / 2 : ℚ)) (0 : Fin 7) - (fun _ => (0 : ℚ)) (0 : Fin 7)|
        ≤ ((2 : Nat) : ℚ) * 1
      ∧ Fl.saturateTorqueRate_iterate roundDouble (fun _ => (3 / 2 : ℚ)) 1 (fun _ => 0) 2 0
        = (fun _ => (3 / 2 : ℚ)) (0 : Fin 7) :=
  ⟨by norm_num, by norm_num [abs_of_pos],
    (saturateTorqueRate_rounded_reaches roundDouble (fun _ => (3 / 2 : ℚ)) (fun _ => 0) 1
      (by norm_num) 2 0 (by norm_num [abs_of_pos]) saturateTorqueRate_rounded_two_steps).1⟩

/-! ### Parameter smoothing in rounded arithmetic -/

/-- Binary64 evaluation of the filter with parameter 0.2 on values that sit on
their target: 1 and 9 stay, 3 moves up by `2^-51`. -/
lemma filter_examples :
    Fl.filter roundDouble (doubleOneFifth ℝ) 1 1 = 1
      ∧ Fl.filter roundDouble (doubleOneFifth ℝ) 3 3 = 3 + 1 / 2251799813685248
      ∧ Fl.filter roundDouble (doubleOneFifth ℝ) 9 9 = 9 := by
  have hb : roundDouble (1 - 3602879701896397 / 18014398509481984 : ℝ)
      = 3602879701896397 / 4503599627370496 := by
    rw [roundDouble_eq _ (-1) 7205759403792794 (by norm_num [abs_of_pos]) (by norm_num [abs_of_pos])
      (Or.inr ⟨by norm_num [abs_of_pos, abs_of_neg], by norm_num⟩)]
    norm_num
  have p1 : roundDouble (3602879701896397 / 18014398509481984 * 1 : ℝ) = 3602879701896397 /
      18014398509481984 := by
    rw [roundDouble_eq _ (-3) 7205759403792794 (by norm_num [abs_of_pos]) (by norm_num [abs_of_pos])
      (Or.inl (by norm_num [abs_of_pos, abs_of_neg]))]
    norm_num
  have q1 : roundDouble (3602879701896397 / 4503599627370496 * 1 : ℝ) = 3602879701896397 /
      4503599627370496 := by
    rw [roundDouble_eq _ (-1) 7205759403792794 (by norm_num [abs_of_pos]) (by norm_num [abs_of_pos])
      (Or.inl (by norm_num [abs_of_pos, abs_of_neg]))]
    norm_num
  have s1 : roundDouble (3602879701896397 / 18014398509481984 + 3602879701896397 / 4503599627370496
      : ℝ) = 1 := by
    rw [roundDouble_eq _ 0 4503599627370496 (by norm_num [abs_of_pos]) (by norm_num [abs_of_pos])
      (Or.inl (by norm_num [abs_of_pos, abs_of_neg]))]
    norm_num
  have p3 : roundDouble (3602879701896397 / 18014398509481984 * 3 : ℝ) = 1351079888211149 /
      2251799813685248 := by
    rw [roundDouble_eq _ (-1) 5404319552844596 (by norm_num [abs_of_pos]) (by norm_num [abs_of_pos])
      (Or.inr ⟨by norm_num [abs_of_pos, abs_of_neg], by norm_num⟩)]
    norm_num
  have q3 : roundDouble (3602879701896397 / 4503599627370496 * 3 : ℝ) = 1351079888211149 /
      562949953421312 := by
    rw [roundDouble_eq _ 1 5404319552844596 (by norm_num [abs_of_pos]) (by norm_num [abs_of_pos])
      (Or.inr ⟨by norm_num [abs_of_pos, abs_of_neg], by norm_num⟩)]
    norm_num
  have s3 : roundDouble (1351079888211149 / 2251799813685248 + 1351079888211149 / 562949953421312 :
      ℝ) = 6755399441055745 / 2251799813685248 := by
    rw [roundDouble_eq _ 1 6755399441055745 (by norm_num [abs_of_pos]) (by norm_num [abs_of_pos])
      (Or.inl (by norm_num [abs_of_pos, abs_of_neg]))]
    norm_num
  have p9 : roundDouble (3602879701896397 / 18014398509481984 * 9 : ℝ) = 8106479329266893 /
      4503599627370496 := by
    rw [roundDouble_eq _ 0 8106479329266893 (by norm_num [abs_of_pos]) (by norm_num [abs_of_pos])
      (Or.inl (by norm_num [abs_of_pos, abs_of_neg]))]
    norm_num
  have q9 : roundDouble (3602879701896397 / 4503599627370496 * 9 : ℝ) = 8106479329266893 /
      1125899906842624 := by
    rw [roundDouble_eq _ 2 8106479329266893 (by norm_num [abs_of_pos]) (by norm_num [abs_of_pos])
      (Or.inl (by norm_num [abs_of_pos, abs_of_neg]))]
    norm_num
  have s9 : roundDouble (8106479329266893 / 4503599627370496 + 8106479329266893 / 1125899906842624 :
      ℝ) = 9 := by
    rw [roundDouble_eq _ 3 5066549580791808 (by norm_num [abs_of_pos]) (by norm_num [abs_of_pos])
      (Or.inl (by norm_num [abs_of_pos, abs_of_neg]))]
    norm_num
  refine ⟨?_, ?_, ?_⟩
  · simp only [Fl.filter, doubleOneFifth]
    rw [hb, p1, q1, s1]
  · simp only [Fl.filter, doubleOneFifth]
    rw [hb, p3, q3, s3]
    norm_num
  · simp only [Fl.filter, doubleOneFifth]
    rw [hb, p9, q9, s9]

/-- The rounded filter of two zeros is zero. -/
lemma filter_zero_zero {α : Type} [LinearOrderedField α] (fl : α → α) (hfl : IsRounding fl)
    (a : α) : Fl.filter fl a 0 0 = 0 := by
  unfold Fl.filter
  rw [mul_zero, mul_zero, hfl.map_zero, add_zero, hfl.map_zero]

/-- The rounded filter of two non-negative values, with a filter parameter in
`[0, 1]`, is non-negative. -/
lemma filter_nonneg {α : Type} [LinearOrderedField α] (fl : α → α) (hfl : IsRounding fl)
    (a t c : α) (ha0 : 0 ≤ a) (ha1 : a ≤ 1) (ht : 0 ≤ t) (hc : 0 ≤ c) :
    0 ≤ Fl.filter fl a t c := by
  have nn : ∀ x : α, 0 ≤ x → 0 ≤ fl x := by
    intro x hx
    have := hfl.1 0 x hx
    rwa [hfl.map_zero] at this
  unfold Fl.filter
  exact nn _ (add_nonneg (nn _ (mul_nonneg ha0 ht))
    (nn _ (mul_nonneg (nn _ (by linarith)) hc)))

/-- Filtering diagonal matrices with non-negative entries gives a diagonal
matrix with non-negative entries. -/
lemma filter_diagonal {α : Type} [LinearOrderedField α] (fl : α → α) (hfl : IsRounding fl)
    (a : α) (ha0 : 0 ≤ a) (ha1 : a ≤ 1) (dl dt : Fin 6 → α)
    (hl : ∀ i, 0 ≤ dl i) (ht : ∀ i, 0 ≤ dt i) :
    (Matrix.of fun i j => Fl.filter fl a (Matrix.diagonal dt i j) (Matrix.diagonal dl i j))
        = Matrix.diagonal (fun i => Fl.filter fl a (dt i) (dl i))
      ∧ ∀ i, 0 ≤ Fl.filter fl a (dt i) (dl i) := by
  refine ⟨?_, fun i => filter_nonneg fl hfl a _ _ ha0 ha1 (ht i) (hl i)⟩
  ext i j
  by_cases h : i = j
  · subst h
    simp
  · simp [Matrix.diagonal_apply_ne _ h, filter_zero_zero fl hfl]

/-- The rank-one example matrix is symmetric positive-semidefinite. -/
lemma rankOneParams_psd :
    IsSymmPSD (rankOneParams ℝ).cartesian_stiffness
      ∧ IsSymmPSD (rankOneParams ℝ).cartesian_damping := by
  have h : IsSymmPSD (Matrix.of fun i j : Fin 6 =>
      (![1, 3, 0, 0, 0, 0] : Fin 6 → ℝ) i * (![1, 3, 0, 0, 0, 0] : Fin 6 → ℝ) j) := by
    constructor
    · ext i j
      simp [Matrix.transpose_apply, mul_comm]
    · intro v
      have e : Matrix.dotProduct v ((Matrix.of fun i j : Fin 6 =>
          (![1, 3, 0, 0, 0, 0] : Fin 6 → ℝ) i * (![1, 3, 0, 0, 0, 0] : Fin 6 → ℝ) j).mulVec v)
          = (v 0 + 3 * v 1) * (v 0 + 3 * v 1) := by
        simp [Matrix.dotProduct, Matrix.mulVec, Fin.sum_univ_succ]
        ring
      rw [e]
      exact mul_self_nonneg _
  exact ⟨h, h⟩

/-- C7 as stated fails in binary64: live and target stiffness and damping are
the rank-one positive-semidefinite matrix with the block `[[1, 3], [3, 9]]`
and the filter parameter is 0.2. After `update_parameters` the diagonal
entries are still 1 and 9 but the off-diagonal entries are `3 + 2^-51`, and
the quadratic form at `(3, -1, 0, 0, 0, 0)` is negative. -/
theorem symmetric_psd_invariant_counterexample :
    (0 : ℝ) < doubleOneFifth ℝ ∧ doubleOneFifth ℝ ≤ 1
      ∧ IsSymmPSD (rankOneParams ℝ).cartesian_stiffness
      ∧ IsSymmPSD (rankOneParams ℝ).cartesian_damping
      ∧ (Fl.update_parameters roundDouble keepOrientation (scenario ℝ) (doubleOneFifth ℝ)
          (rankOneParams ℝ) (rankOneParams ℝ)).live.cartesian_stiffness 0 1
        = 3 + 1 / 2251799813685248
      ∧ ¬ IsSymmPSD (Fl.update_parameters roundDouble keepOrientation (scenario ℝ)
          (doubleOneFifth ℝ) (rankOneParams ℝ) (rankOneParams ℝ)).live.cartesian_stiffness := by
  obtain ⟨f1, f3, f9⟩ := filter_examples
  have e00 : (Fl.update_parameters roundDouble keepOrientation (scenario ℝ) (doubleOneFifth ℝ)
      (rankOneParams ℝ) (rankOneParams ℝ)).live.cartesian_stiffness 0 0 = 1 := by
    simp [Fl.update_parameters, rankOneParams, f1]
  have e01 : (Fl.update_parameters roundDouble keepOrientation (scenario ℝ) (doubleOneFifth ℝ)
      (rankOneParams ℝ) (rankOneParams ℝ)).live.cartesian_stiffness 0 1
      = 3 + 1 / 2251799813685248 := by
    simp [Fl.update_parameters, rankOneParams, f3]
  have e10 : (Fl.update_parameters roundDouble keepOrientation (scenario ℝ) (doubleOneFifth ℝ)
      (rankOneParams ℝ) (rankOneParams ℝ)).live.cartesian_stiffness 1 0
      = 3 + 1 / 2251799813685248 := by
    simp [Fl.update_parameters, rankOneParams, f3]
  have e11 : (Fl.update_parameters roundDouble keepOrientation (scenario ℝ) (doubleOneFifth ℝ)
      (rankOneParams ℝ) (rankOneParams ℝ)).live.cartesian_stiffness 1 1 = 9 := by
    simp [Fl.update_parameters, rankOneParams]
    norm_num [f9]
  refine ⟨by norm_num [doubleOneFifth], by norm_num [doubleOneFifth], rankOneParams_psd.1,
    rankOneParams_psd.2, e01, ?_⟩
  intro h
  have hq := h.2 ![3, -1, 0, 0, 0, 0]
  simp only [Matrix.dotProduct, Matrix.mulVec, Fin.sum_univ_succ, Fin.sum_univ_zero] at hq
  simp at hq
  rw [e00, e01, e10, e11] at hq
  norm_num at hq

/-- For a `sqrt` that maps 0 to 0, the damping target written by
`update_compliance` is `diag(2 sqrt Kt, 2 sqrt Kr)`. -/
lemma update_compliance_damping_of_sqrt_zero {α : Type} [LinearOrderedField α]
    (sqrt : α → α) (h0 : sqrt 0 = 0) (self : Controller α) (Kt Kr : Vec3 α) (ns : α)
    (S0 D0 : Mat66 α) :
    (update_compliance sqrt self Kt Kr ns S0 D0).cartesian_damping_target_
      = Matrix.diagonal ![2 * sqrt (Kt 0), 2 * sqrt (Kt 1), 2 * sqrt (Kt 2),
          2 * sqrt (Kr 0), 2 * sqrt (Kr 1), 2 * sqrt (Kr 2)] := by
  ext i j
  fin_cases i <;> fin_cases j <;>
    first
      | rfl
      | (show (2 : α) * sqrt 0 = 0
         rw [h0, mul_zero])

/-- The stiffness and damping that the rounded `update_parameters` leaves. -/
lemma update_parameters_rounded_matrices {α : Type} [LinearOrderedField α] (fl : α → α)
    (slerp : Quat α → α → Quat α → Quat α) (self : Controller α) (a : α)
    (live target : Params α) :
    (Fl.update_parameters fl slerp self a live target).live.cartesian_stiffness
        = Matrix.of (fun i j =>
          Fl.filter fl a (target.cartesian_stiffness i j) (live.cartesian_stiffness i j))
      ∧ (Fl.update_parameters fl slerp self a live target).live.cartesian_damping
        = Matrix.of (fun i j =>
          Fl.filter fl a (target.cartesian_damping i j) (live.cartesian_damping i j))
      ∧ (Fl.update_parameters fl slerp self a live target).self.cartesian_stiffness_
        = (Fl.update_parameters fl slerp self a live target).live.cartesian_stiffness
      ∧ (Fl.update_parameters fl slerp self a live target).self.cartesian_damping_
        = (Fl.update_parameters fl slerp self a live target).live.cartesian_damping :=
  ⟨rfl, rfl, rfl, rfl⟩

/-- Filtering symmetric matrices entry by entry gives a symmetric matrix. -/
lemma filter_symmetric {α : Type} [LinearOrderedField α] (fl : α → α) (a : α)
    (T M : Mat66 α) (hT : T.transpose = T) (hM : M.transpose = M) :
    (Matrix.of fun i j => Fl.filter fl a (T i j) (M i j)).transpose
      = Matrix.of fun i j => Fl.filter fl a (T i j) (M i j) := by
  ext i j
  have h1 : T j i = T i j := by
    have := congrFun (congrFun hT i) j
    simpa [Matrix.transpose_apply] using this
  have h2 : M j i = M i j := by
    have := congrFun (congrFun hM i) j
    simpa [Matrix.transpose_apply] using this
  simp [Matrix.transpose_apply, h1, h2]

/-- C7 amended: for a rounding `fl` and a filter parameter in (0,1],
`update_parameters` keeps the live stiffness and damping symmetric when they
and their targets are symmetric, and keeps them diagonal with non-negative
entries, hence symmetric positive-semidefinite, when they and their targets
are diagonal with non-negative entries (the form `update_compliance` writes);
the object's fields hold the same matrices; and the targets `update_compliance`
writes for non-negative `Kt`, `Kr` are symmetric positive-semidefinite, for
every `sqrt` that maps 0 to 0 and non-negative numbers to non-negative
numbers. -/
theorem symmetric_psd_rounded_invariant :
    (∀ (fl : ℝ → ℝ), IsRounding fl →
      ∀ (slerp : Quat ℝ → ℝ → Quat ℝ → Quat ℝ) (self : Controller ℝ) (filter_params_ : ℝ)
        (live target : Params ℝ),
        0 < filter_params_ → filter_params_ ≤ 1 →
        (live.cartesian_stiffness.transpose = live.cartesian_stiffness →
          target.cartesian_stiffness.transpose = target.cartesian_stiffness →
          (Fl.update_parameters fl slerp self filter_params_ live
              target).live.cartesian_stiffness.transpose
            = (Fl.update_parameters fl slerp self filter_params_ live
              target).live.cartesian_stiffness)
        ∧ (live.cartesian_damping.transpose = live.cartesian_damping →
          target.cartesian_damping.transpose = target.cartesian_damping →
          (Fl.update_parameters fl slerp self filter_params_ live
              target).live.cartesian_damping.transpose
            = (Fl.update_parameters fl slerp self filter_params_ live
              target).live.cartesian_damping)
        ∧ (∀ dl dt : Fin 6 → ℝ, (∀ i, 0 ≤ dl i) → (∀ i, 0 ≤ dt i) →
          live.cartesian_stiffness = Matrix.diagonal dl →
          target.cartesian_stiffness = Matrix.diagonal dt →
          IsSymmPSD (Fl.update_parameters fl slerp self filter_params_ live
              target).live.cartesian_stiffness
            ∧ ∃ d : Fin 6 → ℝ, (∀ i, 0 ≤ d i)
              ∧ (Fl.update_parameters fl slerp self filter_params_ live
                target).live.cartesian_stiffness = Matrix.diagonal d)
        ∧ (∀ dl dt : Fin 6 → ℝ, (∀ i, 0 ≤ dl i) → (∀ i, 0 ≤ dt i) →
          live.cartesian_damping = Matrix.diagonal dl →
          target.cartesian_damping = Matrix.diagonal dt →
          IsSymmPSD (Fl.update_parameters fl slerp self filter_params_ live
              target).live.cartesian_damping
            ∧ ∃ d : Fin 6 → ℝ, (∀ i, 0 ≤ d i)
              ∧ (Fl.update_parameters fl slerp self filter_params_ live
                target).live.cartesian_damping = Matrix.diagonal d)
        ∧ (Fl.update_parameters fl slerp self filter_params_ live
            target).self.cartesian_stiffness_
          = (Fl.update_parameters fl slerp self filter_params_ live
            target).live.cartesian_stiffness
        ∧ (Fl.update_parameters fl slerp self filter_params_ live
            target).self.cartesian_damping_
          = (Fl.update_parameters fl slerp self filter_params_ live
            target).live.cartesian_damping)
      ∧ (∀ (sqrt : ℝ → ℝ), sqrt 0 = 0 → (∀ x, 0 ≤ x → 0 ≤ sqrt x) →
          ∀ (self : Controller ℝ) (translational_stiffness rotational_stiffness : Vec3 ℝ)
            (nullspace_stiffness : ℝ) (stiffness_before damping_before : Mat66 ℝ),
          (∀ i, 0 ≤ translational_stiffness i) → (∀ i, 0 ≤ rotational_stiffness i) →
          IsSymmPSD (update_compliance sqrt self translational_stiffness
              rotational_stiffness nullspace_stiffness stiffness_before
              damping_before).cartesian_stiffness_target_
            ∧ IsSymmPSD (update_compliance sqrt self translational_stiffness
              rotational_stiffness nullspace_stiffness stiffness_before
              damping_before).cartesian_damping_target_) := by
  constructor
  · intro fl hfl slerp self a live target ha0 ha1
    obtain ⟨eK, eD, eK', eD'⟩ := update_parameters_rounded_matrices fl slerp self a live target
    refine ⟨?_, ?_, ?_, ?_, eK', eD'⟩
    · intro h1 h2
      rw [eK]
      exact filter_symmetric fl a _ _ h2 h1
    · intro h1 h2
      rw [eD]
      exact filter_symmetric fl a _ _ h2 h1
    · intro dl dt hl ht el et
      obtain ⟨hd, hn⟩ := filter_diagonal fl hfl a ha0.le ha1 dl dt hl ht
      rw [eK, el, et, hd]
      exact ⟨IsSymmPSD.diagonal _ hn, _, hn, rfl⟩
    · intro dl dt hl ht el et
      obtain ⟨hd, hn⟩ := filter_diagonal fl hfl a ha0.le ha1 dl dt hl ht
      rw [eD, el, et, hd]
      exact ⟨IsSymmPSD.diagonal _ hn, _, hn, rfl⟩
  · intro sqrt h0 hnn self Kt Kr ns S0 D0 hKt hKr
    rw [update_compliance_stiffness, update_compliance_damping_of_sqrt_zero sqrt h0]
    constructor
    · apply IsSymmPSD.diagonal
      intro i
      fin_cases i
      exacts [hKt 0, hKt 1, hKt 2, hKr 0, hKr 1, hKr 2]
    · apply IsSymmPSD.diagonal
      intro i
      fin_cases i
      exacts [mul_nonneg (by norm_num) (hnn _ (hKt 0)), mul_nonneg (by norm_num) (hnn _ (hKt 1)),
        mul_nonneg (by norm_num) (hnn _ (hKt 2)), mul_nonneg (by norm_num) (hnn _ (hKr 0)),
        mul_nonneg (by norm_num) (hnn _ (hKr 1)), mul_nonneg (by norm_num) (hnn _ (hKr 2))]

/-- Witness of the amended C7 in binary64: filtering the zero matrices toward
the critically damped diagonal pair with filter parameter 0.2, and the
compliance targets of the end-to-end scenario. -/
theorem symmetric_psd_rounded_invariant_witness :
    IsSymmPSD (Fl.update_parameters roundDouble keepOrientation (scenario ℝ)
        (doubleOneFifth ℝ) (uniformParams ℝ 0 0) (uniformParams ℝ 4 4)).live.cartesian_stiffness
      ∧ IsSymmPSD (update_compliance Real.sqrt (scenario ℝ) ![200, 200, 200] ![20, 20, 20]
          10 0 0).cartesian_damping_target_ :=
  ⟨((symmetric_psd_rounded_invariant.1 roundDouble isRounding_roundDouble keepOrientation
      (scenario ℝ) (doubleOneFifth ℝ) (uniformParams ℝ 0 0) (uniformParams ℝ 4 4)
      (by norm_num [doubleOneFifth]) (by norm_num [doubleOneFifth])).2.2.1
      (fun _ => 0) (fun _ => 4) (fun _ => le_refl 0) (fun _ => by norm_num) rfl rfl).1,
    (symmetric_psd_rounded_invariant.2 Real.sqrt Real.sqrt_zero (fun x _ => Real.sqrt_nonneg x)
      (scenario ℝ) ![200, 200, 200] ![20, 20, 20] 10 0 0
      (fun i => by fin_cases i <;> norm_num) (fun i => by fin_cases i <;> norm_num)).2⟩

/-! ### Pose error and control law in rounded arithmetic -/

end CartesianImpedance
